import Mathlib

/-!
Verification development for the agadah-bot-simple repository.

Shallow embedding of the retrieval-and-validation pipeline:
data models and validators (src/app/models.py), the HTTP retry loops
(src/app/tools/agadah_search_tool.py, src/app/tools/agadah_content_fetcher.py),
the local scored game index (src/app/tools/game_db_tool.py), structured
response recovery (src/app/utils.py), the run telemetry recorder
(src/app/logger.py), and the fetched-content whitespace normalizer.

Machine integers are modelled as Int/Nat (Python ints are unbounded).
Python strings are modelled as Lean String / List Char; Python library
helpers (str.strip, str.lower, str.count, str.split, urllib.parse.unquote,
urllib.parse.urlparse) are given explicit executable models below, faithful
to their behaviour on the ASCII fragments the code depends on.
-/

set_option maxRecDepth 4000

namespace AgadahBot

/-- Whitespace characters stripped by Python str.strip() (ASCII fragment). -/
def isSp (c : Char) : Bool :=
  c = ' ' || c = '\t' || c = '\n' || c = '\r' || c = '\x0b' || c = '\x0c'

/-- Drop trailing whitespace characters (the right half of str.strip()). -/
def dropTrail : List Char → List Char
  | [] => []
  | c :: rest =>
    match dropTrail rest with
    | [] => if isSp c then [] else [c]
    | l => c :: l

/-- Python str.strip() on character lists: drop leading and trailing whitespace. -/
def stripChars (l : List Char) : List Char :=
  dropTrail (l.dropWhile isSp)

/-- Python str.strip() on strings. -/
def pyStrip (s : String) : String :=
  String.mk (stripChars s.data)

/-- Python str.lower() (ASCII case folding; Hebrew has no case). -/
def pyLower (s : String) : String :=
  String.mk (s.data.map Char.toLower)

/-- Boolean substring test on character lists (Python `needle in haystack`). -/
def listInfix (pat : List Char) (l : List Char) : Bool :=
  match l with
  | [] => pat.isEmpty
  | _ :: rest => pat.isPrefixOf l || listInfix pat rest

/-- Python str.startswith on strings, via character lists. -/
def startsWithStr (s pre : String) : Bool :=
  pre.data.isPrefixOf s.data

/-- Python `needle in haystack` on strings. -/
def strContains (hay pat : String) : Bool :=
  listInfix pat.data hay.data

/-- Python str.split(sep) for a single-character separator, on character
lists: empty segments are kept, and splitting the empty list yields one
empty segment, as in Python. -/
def splitOnChar (sep : Char) : List Char → List (List Char)
  | [] => [[]]
  | c :: rest =>
    if c = sep then [] :: splitOnChar sep rest
    else
      match splitOnChar sep rest with
      | [] => [[c]]
      | l :: ls => (c :: l) :: ls

/-- Python str.split(sep) on strings for a single-character separator. -/
def pySplit (sep : Char) (s : String) : List String :=
  (splitOnChar sep s.data).map String.mk

/- ===================== src/app/models.py ===================== -/

/-- ActivityType enum from models.py. -/
inductive ActivityType
  | religious_holiday
  | values_education
  | story_session
  | discussion
  | game_based
  | combined
deriving DecidableEq, Repr

/-- AgeGroup enum from models.py. -/
inductive AgeGroup
  | middle
  | teen
deriving DecidableEq, Repr

/-- ActivityDetails model (models.py lines 34-126). -/
structure ActivityDetails where
  activity_type : ActivityType
  age_group : AgeGroup
  duration_minutes : Int
  main_topic : String
  main_values : List String
  specific_story_preference : Option String
  opening_activity_preference : Option String
  closing_message_theme : Option String
  number_of_participants : Option Int
  location_type : Option String
  materials_available : Option (List String)
  additional_requirements : Option String
  special_notes : Option String
  explicit_central_message : Option String
deriving DecidableEq, Repr

/-- Field validator validate_main_topic (models.py lines 103-109). -/
def validate_main_topic (v : String) : Except String String :=
  if pyStrip v = "" then .error "Main topic cannot be empty"
  else .ok (pyStrip v)

/-- Field validator validate_main_values (models.py lines 111-121). -/
def validate_main_values (v : List String) : Except String (List String) :=
  if v = [] then .error "At least one main value is required"
  else
    let filtered := v.filterMap fun val =>
      if pyStrip val = "" then none else some (pyStrip val)
    if filtered = [] then .error "At least one non-empty main value is required"
    else .ok filtered

/-- Pydantic validation of ActivityDetails: the Field range constraints
(duration_minutes ge=30 le=60, number_of_participants ge=1) plus the two
field validators, returning the model with transformed fields. -/
def ActivityDetails.validate (d : ActivityDetails) : Except String ActivityDetails :=
  if d.duration_minutes < 30 || 60 < d.duration_minutes then
    .error "duration_minutes out of range 30-60"
  else
    match validate_main_topic d.main_topic with
    | .error e => .error e
    | .ok topic =>
      match validate_main_values d.main_values with
      | .error e => .error e
      | .ok vals =>
        match d.number_of_participants with
        | some n =>
          if n < 1 then .error "number_of_participants must be at least 1"
          else .ok { d with main_topic := topic, main_values := vals }
        | none => .ok { d with main_topic := topic, main_values := vals }

/-- StoryReference model (models.py lines 129-177). -/
structure StoryReference where
  title : String
  url : String
  content : Option String
  category : Option String
  tags : Option (List String)
  relevance_reason : Option String
deriving DecidableEq, Repr

/-- Field validator StoryReference.validate_url (models.py lines 145-173).
The suspicious-pattern scan at lines 160-172 only emits log warnings and
never rejects, so it does not appear in the result. -/
def StoryReference.validate_url (v : String) : Except String String :=
  if pyStrip v = "" then .error "URL cannot be empty"
  else
    let v2 := pyStrip v
    if !(startsWithStr v2 "http://" || startsWithStr v2 "https://") then
      .error "URL must start with http or https"
    else if !(strContains v2 "agadah.org.il") then
      .error "URL must be from agadah.org.il domain"
    else .ok v2

/-- Pydantic validation of StoryReference. -/
def StoryReference.validate (r : StoryReference) : Except String StoryReference :=
  match StoryReference.validate_url r.url with
  | .error e => .error e
  | .ok u => .ok { r with url := u }

/-- StoryProcessing model (models.py lines 180-199): the only constraint is
the Field min_length=3 on guiding_questions. -/
structure StoryProcessing where
  guiding_questions : List String
  connection_to_topic : String
  discussion_instructions : String
deriving DecidableEq, Repr

/-- Pydantic validation of StoryProcessing (guiding_questions min_length=3). -/
def StoryProcessing.validate (p : StoryProcessing) : Except String StoryProcessing :=
  if p.guiding_questions.length < 3 then
    .error "guiding_questions must contain at least 3 items"
  else .ok p

/-- ActivitySection model (models.py lines 202-254). -/
structure ActivitySection where
  section_name : String
  section_type : String
  description : String
  duration_minutes : Int
  materials_needed : Option (List String)
  instructions : String
  discussion_questions : Option (List String)
  story_reference : Option StoryReference
  story_processing : Option StoryProcessing
deriving DecidableEq, Repr

/-- Field validator validate_non_empty (models.py lines 243-250),
applied to section_name, description and instructions. -/
def validate_non_empty (fieldName : String) (v : String) : Except String String :=
  if pyStrip v = "" then .error (fieldName ++ " cannot be empty")
  else .ok (pyStrip v)

/-- Pydantic validation of ActivitySection: Field ge=1 on duration_minutes,
validate_non_empty on the three string fields, and validation of the nested
optional StoryReference and StoryProcessing models. The section_type field
is a plain str with no validator: any string is accepted there. -/
def ActivitySection.validate (s : ActivitySection) : Except String ActivitySection :=
  match validate_non_empty "section_name" s.section_name with
  | .error e => .error e
  | .ok nm =>
    match validate_non_empty "description" s.description with
    | .error e => .error e
    | .ok ds =>
      if s.duration_minutes < 1 then .error "duration_minutes must be at least 1"
      else
        match validate_non_empty "instructions" s.instructions with
        | .error e => .error e
        | .ok ins =>
          match s.story_reference.mapM StoryReference.validate with
          | .error e => .error e
          | .ok sr =>
            match s.story_processing.mapM StoryProcessing.validate with
            | .error e => .error e
            | .ok sp =>
              .ok { s with
                      section_name := nm, description := ds,
                      instructions := ins, story_reference := sr,
                      story_processing := sp }

/-- ActivityReport model (models.py lines 257-355). -/
structure ActivityReport where
  title : String
  central_message : String
  summary : String
  activity_details : ActivityDetails
  sections : List ActivitySection
  total_duration_minutes : Int
  story_references : List StoryReference
  preparation_notes : Option String
  adaptation_notes : Option String
deriving DecidableEq, Repr

/-- Field validator ActivityReport.validate_title (models.py lines 319-325). -/
def ActivityReport.validate_title (v : String) : Except String String :=
  if pyStrip v = "" then .error "Title cannot be empty"
  else .ok (pyStrip v)

/-- Field validator ActivityReport.validate_sections (models.py lines 327-333):
it only rejects an empty list.  Neither this validator nor any other code
inspects the section_type values or their order. -/
def ActivityReport.validate_sections (v : List ActivitySection) :
    Except String (List ActivitySection) :=
  if v = [] then .error "At least one section is required"
  else .ok v

/-- Field validator ActivityReport.validate_total_duration
(models.py lines 335-341). -/
def ActivityReport.validate_total_duration (v : Int) : Except String Int :=
  if v < 1 then .error "Total duration must be at least 1 minute"
  else .ok v

/-- Validate every element of a list, propagating the first error. -/
def validateList (f : α → Except String α) : List α → Except String (List α)
  | [] => .ok []
  | x :: xs =>
    match f x with
    | .error e => .error e
    | .ok y =>
      match validateList f xs with
      | .error e => .error e
      | .ok ys => .ok (y :: ys)

/-- Pydantic validation of ActivityReport: validate_title, nested
ActivityDetails validation, per-item section validation together with the
Field min_length=3 / max_length=3 constraint on sections, validate_sections,
validate_total_duration (with Field ge=1), and nested StoryReference
validation for story_references. -/
def ActivityReport.validate (r : ActivityReport) : Except String ActivityReport :=
  match ActivityReport.validate_title r.title with
  | .error e => .error e
  | .ok ttl =>
    match r.activity_details.validate with
    | .error e => .error e
    | .ok det =>
      if r.sections.length < 3 || 3 < r.sections.length then
        .error "sections must contain exactly 3 items"
      else
        match validateList ActivitySection.validate r.sections with
        | .error e => .error e
        | .ok secs =>
          match ActivityReport.validate_sections secs with
          | .error e => .error e
          | .ok secs2 =>
            match ActivityReport.validate_total_duration r.total_duration_minutes with
            | .error e => .error e
            | .ok tot =>
              match validateList StoryReference.validate r.story_references with
              | .error e => .error e
              | .ok refs =>
                .ok { r with
                        title := ttl, activity_details := det,
                        sections := secs2, total_duration_minutes := tot,
                        story_references := refs }

/-- Sum of the duration_minutes of a list of sections. -/
def sectionSum (secs : List ActivitySection) : Int :=
  (secs.map (fun s => s.duration_minutes)).sum

/-- The duration-mismatch warning condition tested by
ActivityReport.model_post_init (models.py lines 343-351): true when the
total differs from the sum of section durations by more than 5 minutes.
The code only calls logger.warning in this case; it never raises. -/
def durationWarning (r : ActivityReport) : Bool :=
  5 < (r.total_duration_minutes - sectionSum r.sections).natAbs

/-- Full pydantic construction of an ActivityReport: field validation
followed by model_post_init.  model_post_init cannot fail, so construction
succeeds exactly when field validation does; the Bool records whether the
duration-mismatch warning was logged. -/
def constructReport (r : ActivityReport) : Except String (ActivityReport × Bool) :=
  match ActivityReport.validate r with
  | .error e => .error e
  | .ok v => .ok (v, durationWarning v)

/- ========== HTTP retry layer (agadah_search_tool._perform_request,
agadah_content_fetcher._run retry loop) ========== -/

/-- Outcome of one requests.get attempt in the search tool: either a
response with an HTTP status code, a requests.exceptions.Timeout, or a
non-timeout requests.exceptions.RequestException (connection error). -/
inductive ReqOutcome
  | response (status : Nat)
  | timeout
  | connError
deriving DecidableEq, Repr

/-- Condition under which Response.raise_for_status() raises
requests.exceptions.HTTPError: client (4xx) and server (5xx) statuses. -/
def raisesForStatus (s : Nat) : Bool :=
  decide (400 ≤ s) && decide (s < 600)

/-- Retry loop of AgadahWordPressSearchTool._perform_request
(agadah_search_tool.py lines 139-170), parameterized by an oracle giving
the outcome of each attempt.  A raised HTTPError (from raise_for_status on
a 4xx/5xx response) is a RequestException and lands in the generic retry
branch, exactly like a connection error.  The result is the returned
response status (None after exhausting retries) paired with the number of
attempts actually made.  The Nat argument is the number of remaining
attempts (max_retries - attempt); the code retries while
attempt < max_retries - 1, i.e. while more than one attempt remains. -/
def retryLoop (oracle : Nat → ReqOutcome) (attempt : Nat) : Nat → Option Nat × Nat
  | 0 => (none, attempt)
  | remaining + 1 =>
    match oracle attempt with
    | .response s =>
      if raisesForStatus s then
        if remaining = 0 then (none, attempt + 1)
        else retryLoop oracle (attempt + 1) remaining
      else (some s, attempt + 1)
    | .timeout =>
      if remaining = 0 then (none, attempt + 1)
      else retryLoop oracle (attempt + 1) remaining
    | .connError =>
      if remaining = 0 then (none, attempt + 1)
      else retryLoop oracle (attempt + 1) remaining

/-- AgadahWordPressSearchTool._perform_request with max_retries = 3. -/
def performRequest (oracle : Nat → ReqOutcome) : Option Nat × Nat :=
  retryLoop oracle 0 3

/-- Outcome of one requests.get attempt in the content fetcher: a page
(HTTP status, extracted title and body text) or a raised exception. -/
inductive FetchAttempt
  | page (status : Nat) (title : String) (text : String)
  | timeout
  | connError
deriving DecidableEq, Repr

/-- Result of the content fetcher retry loop. -/
inductive FetchLoopResult
  | got (title : String) (text : String)
  | timedOut
  | netFailed
deriving DecidableEq, Repr

/-- Retry loop of AgadahContentFetcherTool._run
(agadah_content_fetcher.py lines 98-149), max_retries = 2.  As in the
search tool, raise_for_status turns a 4xx/5xx response into an HTTPError
caught by the RequestException branch, which retries and finally reports
status network_error; exhausted timeouts report timeout_error. -/
def fetchRetryLoop (oracle : Nat → FetchAttempt) (attempt : Nat) :
    Nat → FetchLoopResult × Nat
  | 0 => (.netFailed, attempt)
  | remaining + 1 =>
    match oracle attempt with
    | .page s t c =>
      if raisesForStatus s then
        if remaining = 0 then (.netFailed, attempt + 1)
        else fetchRetryLoop oracle (attempt + 1) remaining
      else (.got t c, attempt + 1)
    | .timeout =>
      if remaining = 0 then (.timedOut, attempt + 1)
      else fetchRetryLoop oracle (attempt + 1) remaining
    | .connError =>
      if remaining = 0 then (.netFailed, attempt + 1)
      else fetchRetryLoop oracle (attempt + 1) remaining

/-- An attempt outcome that the retry loop treats as retriable: a timeout,
a connection error, or a response on which raise_for_status raises. -/
def retriable (o : ReqOutcome) : Bool :=
  match o with
  | .response s => raisesForStatus s
  | .timeout => true
  | .connError => true

/- ========== src/app/tools/game_db_tool.py ========== -/

/-- Game entry from the local games_db.json dataset. -/
structure Game where
  title : String
  description : String
  tags : List String
deriving DecidableEq, Repr

/-- Python " ".join(tags). -/
def joinSpace : List String → String
  | [] => ""
  | [s] => s
  | s :: rest => s ++ " " ++ joinSpace rest

/-- Searchable text of a game (game_db_tool.py lines 96-99):
lowercased title, description and space-joined tags, joined by the
f-string with single spaces. -/
def searchableOf (g : Game) : String :=
  pyLower g.title ++ " " ++ pyLower g.description ++ " " ++ pyLower (joinSpace g.tags)

/-- Tokenization of a (already stripped and lowercased) query
(game_db_tool.py lines 72-82): iterated splitting on the separator list
comma, Arabic comma, space and tab, then keeping strip()ped, lower()ed
tokens whose stripped length is at least 2. -/
def tokenizeQuery (q : String) : List String :=
  let seps : List Char := [',', '،', ' ', '\t']
  let keywords := seps.foldl (fun ks sep => ks.flatMap fun kw => pySplit sep kw) [q]
  keywords.filterMap fun kw =>
    if 2 ≤ (pyStrip kw).length then some (pyLower (pyStrip kw)) else none

/-- Score of a game (game_db_tool.py line 102): the number of keyword
tokens, counted with multiplicity, occurring as substrings of the game's
searchable text. -/
def gameScore (keywords : List String) (g : Game) : Nat :=
  (keywords.filter fun kw => strContains (searchableOf g) kw).length

/-- Modelled from the spec wording of C4, for comparison with gameScore:
the count of DISTINCT keywords occurring as substrings of the game's
searchable text. -/
def claimGameScore (keywords : List String) (g : Game) : Nat :=
  (keywords.dedup.filter fun kw => strContains (searchableOf g) kw).length

/-- Stable descending insertion for (score, entry) pairs: the new element
is placed after every strictly higher score and before equal scores, which
together with sortScoredDesc reproduces Python list.sort(key, reverse=True)
stability (ties keep original order). -/
def insertScored (x : Nat × α) : List (Nat × α) → List (Nat × α)
  | [] => [x]
  | y :: ys => if x.1 < y.1 then y :: insertScored x ys else x :: y :: ys

/-- Stable sort by descending score, model of
scored_results.sort(key=lambda x: x[0], reverse=True). -/
def sortScoredDesc : List (Nat × α) → List (Nat × α)
  | [] => []
  | x :: xs => insertScored x (sortScoredDesc xs)

/-- Scored-entry list built by the loop at game_db_tool.py lines 93-105:
each game with a positive score, paired with its score, in dataset order. -/
def scoredOf (kws : List String) (data : List Game) : List (Nat × Game) :=
  data.filterMap fun g =>
    if 0 < gameScore kws g then some (gameScore kws g, g) else none

/-- Modelled from the spec wording of C4: scored entries under the
distinct-keyword score. -/
def claimScoredOf (kws : List String) (data : List Game) : List (Nat × Game) :=
  data.filterMap fun g =>
    if 0 < claimGameScore kws g then some (claimGameScore kws g, g) else none

/-- Result of GameDatabaseSearchTool._run.  random.sample outcomes are
modelled by their sample size k = min(5, len(dataset)); the sentinel,
no-valid-keywords and zero-score fallbacks are distinguished because the
code returns different messages for them. -/
inductive GameSearchResult
  | dbError
  | randomSample (k : Nat)
  | noKeywordsRandom (k : Nat)
  | fallbackRandom (keywords : List String) (k : Nat)
  | keywordResults (keywords : List String) (games : List Game)
deriving DecidableEq, Repr

/-- GameDatabaseSearchTool._run (game_db_tool.py lines 55-124). -/
def gameSearch (gamesData : List Game) (query : String) : GameSearchResult :=
  if gamesData = [] then .dbError
  else
    let q := pyLower (pyStrip query)
    if q = "random" ∨ q = "" ∨ q = "none" ∨ q = "null" ∨ q = "אקראי" then
      .randomSample (min 5 gamesData.length)
    else
      let keywords := tokenizeQuery q
      if keywords = [] then .noKeywordsRandom (min 5 gamesData.length)
      else
        let results := ((sortScoredDesc (scoredOf keywords gamesData)).take 10).map
          fun p => p.2
        if results = [] then .fallbackRandom keywords (min 5 gamesData.length)
        else .keywordResults keywords results

/-- Modelled from the spec wording of C4: the same pipeline but scoring by
the count of distinct keywords (claimGameScore) instead of keyword tokens
with multiplicity. -/
def claimGameSearch (gamesData : List Game) (query : String) : GameSearchResult :=
  if gamesData = [] then .dbError
  else
    let q := pyLower (pyStrip query)
    if q = "random" ∨ q = "" ∨ q = "none" ∨ q = "null" ∨ q = "אקראי" then
      .randomSample (min 5 gamesData.length)
    else
      let keywords := tokenizeQuery q
      if keywords = [] then .noKeywordsRandom (min 5 gamesData.length)
      else
        let results := ((sortScoredDesc (claimScoredOf keywords gamesData)).take 10).map
          fun p => p.2
        if results = [] then .fallbackRandom keywords (min 5 gamesData.length)
        else .keywordResults keywords results

/-- No two adjacent occurrences of a character: the invariant that makes
each of the two run-collapsing passes of the whitespace normalizer a
no-op. -/
def NoTwo (a : Char) (l : List Char) : Prop :=
  List.Chain' (fun x y => ¬(x = a ∧ y = a)) l

/- ========== src/app/logger.py ========== -/

/-- Tool-call record appended by RunLogger.log_tool_call. -/
structure ToolCallRec where
  name : String
  timestamp : Nat
  result : String
deriving DecidableEq, Repr

/-- Per-agent record created by RunLogger.log_agent_start. -/
structure AgentRec where
  name : String
  start_time : Nat
  end_time : Option Nat
  duration_seconds : Option Int
  task : String
  output : Option String
  tokens_input : Nat
  tokens_output : Nat
  model : Option String
  tool_calls : List ToolCallRec
deriving DecidableEq, Repr

/-- Error record appended by RunLogger.log_error. -/
structure ErrorRec where
  message : String
  timestamp : Nat
  exception : Option String
deriving DecidableEq, Repr

/-- The run_data dictionary of RunLogger (logger.py lines 33-48).
Timestamps are abstract clock ticks. -/
structure RunData where
  run_id : String
  start_time : Nat
  end_time : Option Nat
  duration_seconds : Option Int
  user_input : Option String
  final_output : Option String
  agents : List AgentRec
  total_input : Nat
  total_output : Nat
  total_total : Nat
  models_used : List String
  errors : List ErrorRec
deriving DecidableEq, Repr

/-- RunLogger.__init__ data initialization (logger.py lines 33-48). -/
def initRunData (runId : String) (now : Nat) : RunData :=
  { run_id := runId, start_time := now, end_time := none,
    duration_seconds := none, user_input := none, final_output := none,
    agents := [], total_input := 0, total_output := 0, total_total := 0,
    models_used := [], errors := [] }

/-- RunLogger.log_input (logger.py lines 65-68). -/
def log_input (input : String) (rd : RunData) : RunData :=
  { rd with user_input := some input }

/-- In-place update of the i-th agent record, as the Python list indexing
performs. -/
def modifyAt (i : Nat) (f : AgentRec → AgentRec) : List AgentRec → List AgentRec
  | [] => []
  | x :: xs =>
    match i with
    | 0 => f x :: xs
    | j + 1 => x :: modifyAt j f xs

/-- RunLogger.log_agent_start (logger.py lines 70-85). -/
def log_agent_start (name task : String) (now : Nat) (rd : RunData) : RunData :=
  { rd with agents := rd.agents ++
      [{ name := name, start_time := now, end_time := none,
         duration_seconds := none, task := task, output := none,
         tokens_input := 0, tokens_output := 0, model := none,
         tool_calls := [] }] }

/-- RunLogger.log_agent_end (logger.py lines 87-102): guarded by the index
bound, sets end time, output and the stage duration computed from the
stage's own start and end timestamps. -/
def log_agent_end (i : Nat) (output : String) (now : Nat) (rd : RunData) : RunData :=
  if i < rd.agents.length then
    { rd with agents :=
        (modifyAt i
          (fun a =>
            { a with end_time := some now, output := some output,
                     duration_seconds := some ((now : Int) - (a.start_time : Int)) })
          rd.agents) }
  else rd

/-- RunLogger.log_llm_call (logger.py lines 104-135): accumulates per-agent
and total token counts and tracks the distinct models in first-seen order. -/
def log_llm_call (i : Nat) (model : String) (inTok outTok : Nat) (rd : RunData) :
    RunData :=
  if i < rd.agents.length then
    { rd with
        agents :=
          (modifyAt i
            (fun a =>
              { a with tokens_input := a.tokens_input + inTok,
                       tokens_output := a.tokens_output + outTok,
                       model := some model })
            rd.agents),
        total_input := rd.total_input + inTok,
        total_output := rd.total_output + outTok,
        total_total := rd.total_total + (inTok + outTok),
        models_used :=
          if model ∈ rd.models_used then rd.models_used
          else rd.models_used ++ [model] }
  else rd

/-- Truncation of tool results to 500 characters (logger.py line 144). -/
def truncResult (r : String) : String :=
  if 500 < r.length then String.mk (r.data.take 500) ++ "..." else r

/-- RunLogger.log_tool_call (logger.py lines 137-149). -/
def log_tool_call (i : Nat) (tool result : String) (now : Nat) (rd : RunData) :
    RunData :=
  if i < rd.agents.length then
    { rd with agents :=
        (modifyAt i
          (fun a =>
            { a with tool_calls := a.tool_calls ++
                [{ name := tool, timestamp := now, result := truncResult result }] })
          rd.agents) }
  else rd

/-- RunLogger.log_error (logger.py lines 151-162). -/
def log_error (msg : String) (exc : Option String) (now : Nat) (rd : RunData) :
    RunData :=
  { rd with errors := rd.errors ++ [{ message := msg, timestamp := now,
                                      exception := exc }] }

/-- RunLogger.log_output (logger.py lines 164-168). -/
def log_output (s : String) (rd : RunData) : RunData :=
  { rd with final_output := some s }

/-- RunLogger.finalize (logger.py lines 170-196): set the end time, compute
the total run duration from start and end, and (in run_logger below) save
the complete trace as one JSON document. -/
def RunLogger.finalize (now : Nat) (rd : RunData) : RunData :=
  { rd with end_time := some now,
            duration_seconds := some ((now : Int) - (rd.start_time : Int)) }

/-- The public logging calls a run body can make through the RunLogger
API while it executes. -/
inductive LogEvent
  | agentStart (name task : String)
  | agentEnd (idx : Nat) (output : String)
  | llmCall (idx : Nat) (model : String) (inTok outTok : Nat)
  | toolCall (idx : Nat) (tool result : String)
  | errorEvt (msg : String) (exc : Option String)
  | outputEvt (s : String)
deriving DecidableEq, Repr

/-- Dispatch one logging call against the run data at the given time. -/
def applyEvent (now : Nat) (rd : RunData) : LogEvent → RunData
  | .agentStart name task => log_agent_start name task now rd
  | .agentEnd i output => log_agent_end i output now rd
  | .llmCall i model inTok outTok => log_llm_call i model inTok outTok rd
  | .toolCall i tool result => log_tool_call i tool result now rd
  | .errorEvt msg exc => log_error msg exc now rd
  | .outputEvt s => log_output s rd

/-- Apply the body's logging calls in order, each at the next clock tick;
returns the final data and the next tick. -/
def applyEvents (clock : Nat → Nat) (tick : Nat) (rd : RunData) :
    List LogEvent → RunData × Nat
  | [] => (rd, tick)
  | e :: es => applyEvents clock (tick + 1) (applyEvent (clock tick) rd e) es

/-- Observable outcome of one scoped run: the final trace, the list of
JSON documents persisted, the re-raised exception, and how many times
finalize executed. -/
structure RunOutcomeRec where
  finalData : RunData
  persisted : List RunData
  raised : Option String
  finalizeCount : Nat
deriving DecidableEq, Repr

/-- The run_logger context manager (logger.py lines 214-242) on the
enabled path: create the logger, record the input, run the body (modelled
by its logging calls and its normal-or-raising outcome); on an exception
log_error records it and the exception is re-raised; the finally block
always runs finalize, which stamps the end time, computes the duration and
persists the complete trace as a single JSON document.  The clock maps
successive datetime.now() calls to their tick. -/
def run_logger (clock : Nat → Nat) (userInput : String) (events : List LogEvent)
    (outcome : Except String Unit) : RunOutcomeRec :=
  let rd1 := log_input userInput (initRunData (Nat.repr (clock 0)) (clock 0))
  let stepped := applyEvents clock 1 rd1 events
  match outcome with
  | .ok _ =>
    let rdF := RunLogger.finalize (clock stepped.2) stepped.1
    { finalData := rdF, persisted := [rdF], raised := none, finalizeCount := 1 }
  | .error e =>
    let rd3 := log_error "Run failed with exception" (some e) (clock stepped.2) stepped.1
    let rdF := RunLogger.finalize (clock (stepped.2 + 1)) rd3
    { finalData := rdF, persisted := [rdF], raised := some e, finalizeCount := 1 }

/- ========== urllib.parse models and URL validation ========== -/

/-- Hexadecimal digit value, as accepted inside percent-escapes. -/
def hexVal (c : Char) : Option Nat :=
  if '0' ≤ c ∧ c ≤ '9' then some (c.toNat - '0'.toNat)
  else if 'a' ≤ c ∧ c ≤ 'f' then some (c.toNat - 'a'.toNat + 10)
  else if 'A' ≤ c ∧ c ≤ 'F' then some (c.toNat - 'A'.toNat + 10)
  else none

/-- urllib.parse.unquote on character lists: a percent sign followed by two
hex digits decodes to the character with that code; other percent signs
pass through unchanged.  This models the decoding byte-for-byte, which
agrees with Python for ASCII escapes (multi-byte UTF-8 escape sequences are
not reassembled; no property below depends on them). -/
def pyUnquoteList : List Char → List Char
  | [] => []
  | '%' :: h1 :: h2 :: rest =>
    (match hexVal h1, hexVal h2 with
     | some a, some b => Char.ofNat (16 * a + b) :: pyUnquoteList rest
     | _, _ => '%' :: pyUnquoteList (h1 :: h2 :: rest))
  | c :: rest => c :: pyUnquoteList rest

/-- urllib.parse.unquote on strings. -/
def pyUnquote (s : String) : String :=
  String.mk (pyUnquoteList s.data)

/-- Components produced by urllib.parse.urlparse. -/
structure UrlParts where
  scheme : String
  netloc : String
  path : String
  query : String
  fragment : String
deriving DecidableEq, Repr

/-- Characters allowed in a URL scheme after the leading letter. -/
def isSchemeChar (c : Char) : Bool :=
  c.isAlpha || c.isDigit || c = '+' || c = '-' || c = '.'

/-- Split a character list at the first occurrence of a separator. -/
def splitFirst (sep : Char) : List Char → Option (List Char × List Char)
  | [] => none
  | c :: rest =>
    if c = sep then some ([], rest)
    else
      match splitFirst sep rest with
      | none => none
      | some (a, b) => some (c :: a, b)

/-- urllib.parse.urlparse model: an initial letter-led run of scheme
characters before a colon is the (lowercased) scheme; after // the netloc
runs to the next slash, question mark or hash; the fragment follows the
first hash and the query the first question mark of what remains. -/
def pyUrlparse (url : String) : UrlParts :=
  let l := url.data
  let schemeSplit :=
    match splitFirst ':' l with
    | some (sch, rest) =>
      if sch ≠ [] ∧ (sch.headD ' ').isAlpha ∧ sch.all isSchemeChar then
        (sch.map Char.toLower, rest)
      else ([], l)
    | none => ([], l)
  let scheme := schemeSplit.1
  let rest := schemeSplit.2
  let netlocSplit :=
    match rest with
    | '/' :: '/' :: r2 =>
      let nl := r2.takeWhile fun c => ¬(c = '/' ∨ c = '?' ∨ c = '#')
      (nl, r2.drop nl.length)
    | _ => ([], rest)
  let netloc := netlocSplit.1
  let rest2 := netlocSplit.2
  let fragSplit :=
    match splitFirst '#' rest2 with
    | some (a, b) => (a, b)
    | none => (rest2, [])
  let querySplit :=
    match splitFirst '?' fragSplit.1 with
    | some (a, b) => (a, b)
    | none => (fragSplit.1, [])
  { scheme := String.mk scheme, netloc := String.mk netloc,
    path := String.mk querySplit.1, query := String.mk querySplit.2,
    fragment := String.mk fragSplit.2 }

/-- Outcome of the lightweight HEAD existence check. -/
inductive HeadOutcome
  | status (code : Nat)
  | netError
deriving DecidableEq, Repr

/-- Canonical URL reconstruction (agadah_search_tool.py lines 217-222):
scheme://netloc + path, plus the query when present; the fragment and
encoding artifacts are dropped. -/
def cleanUrlOf (url : String) : String :=
  let parsed := pyUrlparse (pyUnquote (pyStrip url))
  parsed.scheme ++ "://" ++ parsed.netloc ++ parsed.path ++
    (if parsed.query ≠ "" then "?" ++ parsed.query else "")

/-- AgadahWordPressSearchTool._validate_and_clean_url
(agadah_search_tool.py lines 182-245), parameterized by a HEAD oracle.
Returns the accepted cleaned URL (or None) paired with how many network
requests were issued.  A confirmed 404 or any status of at least 400 drops
the candidate; a RequestException on the HEAD check is logged and the
cleaned URL is returned anyway. -/
def validateAndCleanUrl (head : String → HeadOutcome) (url : String) :
    Option String × Nat :=
  if pyStrip url = "" then (none, 0)
  else
    let parsed := pyUrlparse (pyUnquote (pyStrip url))
    if parsed.netloc = "" ∨ strContains parsed.netloc "agadah.org.il" = false then
      (none, 0)
    else if ¬(parsed.scheme = "http" ∨ parsed.scheme = "https") then (none, 0)
    else
      match head (cleanUrlOf url) with
      | .status code =>
        if code = 404 then (none, 1)
        else if 400 ≤ code then (none, 1)
        else (some (cleanUrlOf url), 1)
      | .netError => (some (cleanUrlOf url), 1)

/- ========== src/app/tools/agadah_content_fetcher.py ========== -/

/-- Classified result of AgadahContentFetcherTool._run.  Error
constructors mirror the JSON error payloads of the source, carrying the
numeric fields the code reports. -/
inductive FetchResult
  | errorEmptyUrl
  | errorInvalidFormat
  | errorNotAgadah
  | invalidUrlType
  | homepage
  | timeoutError
  | networkError
  | tooManyLinks (linkTotal : Nat)
  | navigationPage (indicators : Nat)
  | tooShortNav (len : Nat)
  | tooShort (len : Nat)
  | success (title content : String)
deriving DecidableEq, Repr

/-- Known non-story path patterns (agadah_content_fetcher.py line 76). -/
def invalidPatterns : List String :=
  ["/category/", "/tag/", "/author/", "/page/", "/feed/"]

/-- Strong navigation-keyword list (agadah_content_fetcher.py lines
213-218). -/
def navKeywords : List String :=
  ["דלגו לניווט", "דלגו לתוכן", "דלגו לפוטר",
   "סיפורים עם:", "מאז ועד היום",
   "סרטונים ופודקאסטים",
   "תנאי שימוש", "הצהרת נגישות"]

/-- Python str.count worker: non-overlapping occurrences of a pattern,
scanning left to right.  The fuel argument is structural and at least the
list length, so it never runs out: every step consumes at least one
character. -/
def countOccurAux (pat : List Char) : Nat → List Char → Nat
  | 0, _ => 0
  | _, [] => 0
  | fuel + 1, c :: rest =>
    if pat ≠ [] ∧ pat.isPrefixOf (c :: rest) then
      countOccurAux pat fuel ((c :: rest).drop pat.length) + 1
    else countOccurAux pat fuel rest

/-- Python str.count: non-overlapping occurrences, scanning left to right. -/
def countOccur (pat l : List Char) : Nat :=
  countOccurAux pat l.length l

/-- Python str.count on strings. -/
def strCount (hay pat : String) : Nat :=
  countOccur pat.data hay.data

/-- Embedded-link count (agadah_content_fetcher.py line 199): occurrences
of the two URL prefixes in the lowercased content. -/
def linkTotal (content : String) : Nat :=
  strCount (pyLower content) "http://" + strCount (pyLower content) "https://"

/-- Strong-navigation indicator count (agadah_content_fetcher.py line 221). -/
def navScore (content : String) : Nat :=
  (navKeywords.filter fun kw => strContains content kw).length

/-- Truncation to 5000 characters plus the minimum-length check
(agadah_content_fetcher.py lines 246-259). -/
def afterQuality (title content : String) : FetchResult :=
  let truncated :=
    if 5000 < content.length then
      String.mk (content.data.take 5000) ++ "... [content truncated]"
    else content
  if truncated = "" ∨ truncated.length < 150 then .tooShort truncated.length
  else .success title truncated

/-- Quality heuristics applied to cleaned content
(agadah_content_fetcher.py lines 196-259), in source order: link density
first, then the strong-navigation-keyword count, then short content with a
navigation trait, each short-circuiting; survivors proceed to truncation
and the minimum-length check. -/
def qualityChecks (title content : String) : FetchResult :=
  if content ≠ "" then
    if 10 < linkTotal content then .tooManyLinks (linkTotal content)
    else if 2 ≤ navScore content then .navigationPage (navScore content)
    else if content.length < 300 ∧ 1 ≤ navScore content then
      .tooShortNav content.length
    else afterQuality title content
  else afterQuality title content

/-- Python str.rstrip for the slash character. -/
def rstripSlash (s : String) : String :=
  String.mk ((s.data.reverse.dropWhile fun c => c = '/').reverse)

/-- Run of two consecutive newlines seen so far, capped at 2: state for the
newline-collapsing pass. -/
def collapseNLAux (n : Nat) : List Char → List Char
  | [] => []
  | c :: rest =>
    if c = '\n' then
      if 2 ≤ n then collapseNLAux n rest
      else c :: collapseNLAux (n + 1) rest
    else c :: collapseNLAux 0 rest

/-- Model of re.sub of three or more newlines by two
(agadah_content_fetcher.py line 287): every newline already preceded by two
consecutive newlines is dropped. -/
def collapseNL (l : List Char) : List Char :=
  collapseNLAux 0 l

/-- Space-collapsing pass state: whether the previous character was a
space. -/
def collapseSpAux (prev : Bool) : List Char → List Char
  | [] => []
  | c :: rest =>
    if c = ' ' then
      if prev then collapseSpAux true rest
      else c :: collapseSpAux true rest
    else c :: collapseSpAux false rest

/-- Model of re.sub of two or more spaces by one
(agadah_content_fetcher.py line 288): every space directly following a
space is dropped. -/
def collapseSp (l : List Char) : List Char :=
  collapseSpAux false l

/-- Python newline join of line lists. -/
def joinNl : List (List Char) → List Char
  | [] => []
  | [m] => m
  | m :: ms => m ++ '\n' :: joinNl ms

/-- AgadahContentFetcherTool._clean_text on character lists
(agadah_content_fetcher.py lines 281-294): collapse newline runs, collapse
space runs, strip every line, drop empty lines, rejoin with single
newlines, and strip the result. -/
def cleanTextList (l : List Char) : List Char :=
  let t2 := collapseSp (collapseNL l)
  let lines := (splitOnChar '\n' t2).map stripChars
  let kept := lines.filter fun m => !m.isEmpty
  stripChars (joinNl kept)

/-- AgadahContentFetcherTool._clean_text: the empty string is returned
unchanged (the falsy-input guard), otherwise the normalization runs. -/
def cleanText (s : String) : String :=
  if s = "" then "" else String.mk (cleanTextList s.data)

/-- AgadahContentFetcherTool._run (agadah_content_fetcher.py lines
42-279), parameterized by a network oracle whose page outcomes carry the
title and body text that the BeautifulSoup extraction (lines 151-192)
would produce.  All URL prechecks run before the retry loop; the second
component counts network requests issued. -/
def fetcherRun (oracle : Nat → FetchAttempt) (url : String) : FetchResult × Nat :=
  if pyStrip url = "" then (.errorEmptyUrl, 0)
  else
    let u := pyUnquote (pyStrip url)
    if ¬(startsWithStr u "http://" = true ∨ startsWithStr u "https://" = true) then
      (.errorInvalidFormat, 0)
    else if strContains u "agadah.org.il" = false then (.errorNotAgadah, 0)
    else if invalidPatterns.any (fun p => strContains (pyLower u) p) then
      (.invalidUrlType, 0)
    else if rstripSlash u = "https://agadah.org.il" ∨
        rstripSlash u = "http://agadah.org.il" then (.homepage, 0)
    else
      match fetchRetryLoop oracle 0 2 with
      | (.got t c, n) => (qualityChecks t (cleanText c), n)
      | (.timedOut, n) => (.timeoutError, n)
      | (.netFailed, n) => (.networkError, n)

/-- Request oracle whose first attempt yields HTTP 404 and later attempts
yield HTTP 200. -/
def oracle404then200 : Nat → ReqOutcome :=
  fun i => if i = 0 then .response 404 else .response 200

/- ========== src/app/utils.py: extract_json_from_text ========== -/

/-- JSON values as parsed by the json.loads model.  Numbers are restricted
to integers: no property below depends on floats, and a float in the input
makes the model parser fail rather than misparse. -/
inductive Json
  | null
  | bool (b : Bool)
  | num (n : Int)
  | str (s : String)
  | arr (items : List Json)
  | obj (fields : List (String × Json))
deriving Repr

/-- JSON insignificant whitespace. -/
def jsonWs (c : Char) : Bool :=
  c = ' ' || c = '\t' || c = '\n' || c = '\r'

/-- Skip JSON whitespace. -/
def skipWs (l : List Char) : List Char :=
  l.dropWhile jsonWs

/-- Single-character JSON string escapes. -/
def escChar (e : Char) : Option Char :=
  if e = '"' then some '"'
  else if e = '\\' then some '\\'
  else if e = '/' then some '/'
  else if e = 'n' then some '\n'
  else if e = 't' then some '\t'
  else if e = 'r' then some '\r'
  else if e = 'b' then some (Char.ofNat 8)
  else if e = 'f' then some (Char.ofNat 12)
  else none

/-- JSON string body parser (after the opening quote): returns the decoded
characters and the remainder after the closing quote.  Unescaped control
characters and invalid escapes fail, as in json.loads. -/
def parseStrAux : List Char → Option (List Char × List Char)
  | [] => none
  | '"' :: rest => some ([], rest)
  | '\\' :: e :: rest =>
    if e = 'u' then
      match rest with
      | h1 :: h2 :: h3 :: h4 :: r2 =>
        (match hexVal h1, hexVal h2, hexVal h3, hexVal h4 with
         | some a, some b, some c, some d =>
           (match parseStrAux r2 with
            | some (cs, r3) => some (Char.ofNat (((a * 16 + b) * 16 + c) * 16 + d) :: cs, r3)
            | none => none)
         | _, _, _, _ => none)
      | _ => none
    else
      (match escChar e with
       | some c =>
         (match parseStrAux rest with
          | some (cs, r2) => some (c :: cs, r2)
          | none => none)
       | none => none)
  | c :: rest =>
    if c.toNat < 32 then none
    else
      match parseStrAux rest with
      | some (cs, r2) => some (c :: cs, r2)
      | none => none

/-- JSON integer parser: optional minus sign, digits without a redundant
leading zero; a following fraction or exponent makes the model fail
(floats unsupported). -/
def parseNum (l : List Char) : Option (Json × List Char) :=
  let signSplit : Int × List Char :=
    match l with
    | '-' :: r => (-1, r)
    | _ => (1, l)
  let digits := signSplit.2.takeWhile Char.isDigit
  if digits = [] then none
  else if 1 < digits.length ∧ digits.headD ' ' = '0' then none
  else
    let rest := signSplit.2.drop digits.length
    match rest with
    | '.' :: _ => none
    | 'e' :: _ => none
    | 'E' :: _ => none
    | _ =>
      let v : Nat := digits.foldl (fun acc c => acc * 10 + (c.toNat - 48)) 0
      some (.num (signSplit.1 * (v : Int)), rest)

mutual

/-- JSON value parser with structural fuel. -/
def parseVal : Nat → List Char → Option (Json × List Char)
  | 0, _ => none
  | fuel + 1, l =>
    match skipWs l with
    | 'n' :: 'u' :: 'l' :: 'l' :: rest => some (.null, rest)
    | 't' :: 'r' :: 'u' :: 'e' :: rest => some (.bool true, rest)
    | 'f' :: 'a' :: 'l' :: 's' :: 'e' :: rest => some (.bool false, rest)
    | '"' :: rest =>
      (match parseStrAux rest with
       | some (cs, r2) => some (.str (String.mk cs), r2)
       | none => none)
    | '[' :: rest =>
      (match skipWs rest with
       | ']' :: r2 => some (.arr [], r2)
       | _ =>
         match parseItems fuel rest with
         | some (items, r2) => some (.arr items, r2)
         | none => none)
    | '\x7b' :: rest =>
      (match skipWs rest with
       | '\x7d' :: r2 => some (.obj [], r2)
       | _ =>
         match parseFields fuel rest with
         | some (fields, r2) => some (.obj fields, r2)
         | none => none)
    | l2 => parseNum l2

/-- JSON array items parser (after the opening bracket, nonempty case). -/
def parseItems : Nat → List Char → Option (List Json × List Char)
  | 0, _ => none
  | fuel + 1, l =>
    match parseVal fuel l with
    | none => none
    | some (v, r) =>
      match skipWs r with
      | ',' :: r2 =>
        (match parseItems fuel r2 with
         | some (vs, r3) => some (v :: vs, r3)
         | none => none)
      | ']' :: r2 => some ([v], r2)
      | _ => none

/-- JSON object members parser (after the opening brace, nonempty case). -/
def parseFields : Nat → List Char → Option (List (String × Json) × List Char)
  | 0, _ => none
  | fuel + 1, l =>
    match skipWs l with
    | '"' :: r =>
      (match parseStrAux r with
       | none => none
       | some (k, r2) =>
         match skipWs r2 with
         | ':' :: r3 =>
           (match parseVal fuel r3 with
            | none => none
            | some (v, r4) =>
              match skipWs r4 with
              | ',' :: r5 =>
                (match parseFields fuel r5 with
                 | some (fs, r6) => some ((String.mk k, v) :: fs, r6)
                 | none => none)
              | '\x7d' :: r5 => some ([(String.mk k, v)], r5)
              | _ => none)
         | _ => none)
    | _ => none

end

/-- json.loads model: parse one JSON document, allowing surrounding
whitespace and requiring the whole input to be consumed. -/
def jsonLoads (s : String) : Option Json :=
  match parseVal (2 * (s.data.length + 1)) s.data with
  | some (v, rest) => if skipWs rest = [] then some v else none
  | none => none

/-- Matcher for the brace regex at utils.py line 38, positioned just after
an opening brace: the body may contain non-brace characters and complete
one-level nested brace groups; the match ends at the next bare closing
brace.  Returns the body characters and the remainder after the closing
brace; returns none when no such match starts here (greedy matching with
backtracking over this pattern accepts exactly these bodies, since no body
item can begin with a closing brace). -/
def braceMatchAt : Nat → List Char → Option (List Char × List Char)
  | 0, _ => none
  | _, [] => none
  | fuel + 1, c :: rest =>
    if c = '\x7d' then some ([], rest)
    else if c = '\x7b' then
      let inner := rest.takeWhile fun d => ¬(d = '\x7b' ∨ d = '\x7d')
      match rest.drop inner.length with
      | '\x7d' :: r2 =>
        (match braceMatchAt fuel r2 with
         | some (body, r3) => some ('\x7b' :: (inner ++ '\x7d' :: body), r3)
         | none => none)
      | _ => none
    else
      match braceMatchAt fuel rest with
      | some (body, r2) => some (c :: body, r2)
      | none => none

/-- re.finditer over the brace pattern: scan left to right, at each opening
brace attempt a match; successful matches are emitted (with their braces)
and scanning resumes after them, as matches do not overlap. -/
def braceMatches : Nat → List Char → List (List Char)
  | 0, _ => []
  | _, [] => []
  | fuel + 1, c :: rest =>
    if c = '\x7b' then
      match braceMatchAt (rest.length + 1) rest with
      | some (body, r2) => ('\x7b' :: body ++ ['\x7d']) :: braceMatches fuel r2
      | none => braceMatches fuel rest
    else braceMatches fuel rest

/-- The brace-delimited candidate substrings of a text, in order of
appearance. -/
def regexJsonMatches (text : String) : List String :=
  (braceMatches (text.data.length + 1) text.data).map String.mk

/-- The for-loop over regex matches at utils.py lines 41-48: parse each
candidate, skipping failures, and return the first success. -/
def firstParse (loads : String → Option Json) : List String → Option Json
  | [] => none
  | m :: ms =>
    match loads m with
    | some v => some v
    | none => firstParse loads ms

/-- extract_json_from_text (utils.py lines 14-52), parameterized by the
json.loads implementation: empty/whitespace input yields None, then a
direct parse of the whole text is attempted, then each brace-delimited
substring in order; total failure yields None, never an exception (every
JSONDecodeError is caught). -/
def extract_json_from_text (loads : String → Option Json) (text : String) :
    Option Json :=
  if pyStrip text = "" then none
  else
    match loads text with
    | some v => some v
    | none => firstParse loads (regexJsonMatches text)

/-- The example text from the spec, with literal backticks around the JSON
object. -/
def exampleText : String := "Note: ```\x7b\"a\":1\x7d``` thanks"

/-- Concrete cleaned content containing 12 occurrences of the literal
prefix and more than 150 characters. -/
def manyLinksContent : String :=
  "http:// http:// http:// http:// http:// http:// http:// http:// http:// http:// http:// http:// This page links to many stories and is clearly a navigation listing rather than a single story text."

/-- HEAD oracle answering 200 to every request. -/
def headOk : String → HeadOutcome := fun _ => .status 200

/-- HEAD oracle answering 404 to every request. -/
def head404 : String → HeadOutcome := fun _ => .status 404

/-- HEAD oracle raising a network error on every request. -/
def headDown : String → HeadOutcome := fun _ => .netError

/-- Fetch oracle timing out on every request. -/
def oracleTimeout : Nat → FetchAttempt := fun _ => .timeout

/-- Game containing only the keyword ab. -/
def gameA : Game := { title := "ab", description := "", tags := [] }

/-- Game containing only the keyword cd. -/
def gameB : Game := { title := "cd", description := "", tags := [] }

/-- Concrete section fixture with the given name, type and duration. -/
def secOf (nm ty : String) (dur : Int) : ActivitySection :=
  { section_name := nm, section_type := ty, description := "desc",
    duration_minutes := dur, materials_needed := none,
    instructions := "steps", discussion_questions := none,
    story_reference := none, story_processing := none }

/-- Concrete ActivityDetails fixture passing all field validators. -/
def demoDetails : ActivityDetails :=
  { activity_type := .discussion, age_group := .teen, duration_minutes := 40,
    main_topic := "topic", main_values := ["value"],
    specific_story_preference := none, opening_activity_preference := none,
    closing_message_theme := none, number_of_participants := none,
    location_type := none, materials_available := none,
    additional_requirements := none, special_notes := none,
    explicit_central_message := none }

/-- Concrete report whose three sections appear in the order
game, story, story_processing (not the canonical story-first order). -/
def badOrderReport : ActivityReport :=
  { title := "T", central_message := "a concrete and specific message",
    summary := "s", activity_details := demoDetails,
    sections := [secOf "Game" "game" 10, secOf "Story" "story" 10,
                 secOf "Processing" "story_processing" 10],
    total_duration_minutes := 30, story_references := [],
    preparation_notes := none, adaptation_notes := none }

/-- Concrete report with the canonical section order and matching total. -/
def goodOrderReport : ActivityReport :=
  { title := "T", central_message := "a concrete and specific message",
    summary := "s", activity_details := demoDetails,
    sections := [secOf "Story" "story" 10, secOf "Processing" "story_processing" 10,
                 secOf "Game" "game" 10],
    total_duration_minutes := 30, story_references := [],
    preparation_notes := none, adaptation_notes := none }

/-- Concrete report with total_duration_minutes 45 against sections whose
durations sum to 52 (mismatch of 7 > 5). -/
def mismatchReport : ActivityReport :=
  { title := "T", central_message := "a concrete and specific message",
    summary := "s", activity_details := demoDetails,
    sections := [secOf "Story" "story" 20, secOf "Processing" "story_processing" 20,
                 secOf "Game" "game" 12],
    total_duration_minutes := 45, story_references := [],
    preparation_notes := none, adaptation_notes := none }

end AgadahBot

namespace AgadahBot

/-- Claim C1, counterexample: a report whose three sections have
section_type order game, story, story_processing is accepted by validation,
refuting the part of the claim that says any non-canonical order is
rejected. -/
theorem C1_counterexample :
    ActivityReport.validate badOrderReport = .ok badOrderReport ∧
    badOrderReport.sections.map (fun s => s.section_type) =
      ["game", "story", "story_processing"] := by
  constructor
  · rfl
  · rfl

/-- Claim C1 (amended): every ActivityReport accepted by validation has
exactly 3 sections (fewer or more are rejected by the Field
min_length=3/max_length=3 constraint); the order of section_type values is
not validated, so the three sections are accepted in any order. -/
theorem C1_exactly_three_sections :
    ∀ (r : ActivityReport) (v : ActivityReport),
      ActivityReport.validate r = .ok v → r.sections.length = 3 := by
  intro r v h
  unfold ActivityReport.validate at h
  repeat' split at h
  all_goals simp_all

/-- Claim C1, witness: a concrete accepted report has exactly 3 sections. -/
theorem C1_witness :
    ActivityReport.validate goodOrderReport = .ok goodOrderReport ∧
    goodOrderReport.sections.length = 3 :=
  ⟨by rfl, C1_exactly_three_sections goodOrderReport goodOrderReport (by rfl)⟩

/-- Claim C2: whenever field validation of an ActivityReport succeeds,
full construction (including model_post_init) also succeeds regardless of
any mismatch between total_duration_minutes and the sum of section
durations; the mismatch only sets the warning flag, and within the 5-minute
tolerance no warning is emitted. -/
theorem C2_duration_tolerance :
    ∀ (r v : ActivityReport), ActivityReport.validate r = .ok v →
      constructReport r = .ok (v, durationWarning v) ∧
      ((v.total_duration_minutes - sectionSum v.sections).natAbs ≤ 5 →
        durationWarning v = false) := by
  intro r v h
  constructor
  · simp [constructReport, h]
  · intro hle
    simp only [durationWarning, decide_eq_false_iff_not]
    omega

/-- Claim C2, witness: the concrete report with total 45 and section sum 52
is constructed successfully and the warning flag is set. -/
theorem C2_witness :
    constructReport mismatchReport = .ok (mismatchReport, durationWarning mismatchReport) ∧
    durationWarning mismatchReport = true :=
  ⟨(C2_duration_tolerance mismatchReport mismatchReport (by rfl)).1, by rfl⟩

/-- Unfolding equation of retryLoop when the attempt yields a response. -/
theorem retryLoop_response_eq (oracle : Nat → ReqOutcome) (a rem s : Nat)
    (h : oracle a = .response s) :
    retryLoop oracle a (rem + 1) =
      if raisesForStatus s then
        (if rem = 0 then (none, a + 1) else retryLoop oracle (a + 1) rem)
      else (some s, a + 1) := by
  conv_lhs => unfold retryLoop
  rw [h]

/-- Unfolding equation of retryLoop when the attempt times out. -/
theorem retryLoop_timeout_eq (oracle : Nat → ReqOutcome) (a rem : Nat)
    (h : oracle a = .timeout) :
    retryLoop oracle a (rem + 1) =
      if rem = 0 then (none, a + 1) else retryLoop oracle (a + 1) rem := by
  conv_lhs => unfold retryLoop
  rw [h]

/-- Unfolding equation of retryLoop on a connection error. -/
theorem retryLoop_conn_eq (oracle : Nat → ReqOutcome) (a rem : Nat)
    (h : oracle a = .connError) :
    retryLoop oracle a (rem + 1) =
      if rem = 0 then (none, a + 1) else retryLoop oracle (a + 1) rem := by
  conv_lhs => unfold retryLoop
  rw [h]

/-- Unfolding equation of fetchRetryLoop when the attempt yields a page. -/
theorem fetchRetryLoop_page_eq (fo : Nat → FetchAttempt) (a rem s : Nat)
    (t c : String) (h : fo a = .page s t c) :
    fetchRetryLoop fo a (rem + 1) =
      if raisesForStatus s then
        (if rem = 0 then (.netFailed, a + 1) else fetchRetryLoop fo (a + 1) rem)
      else (.got t c, a + 1) := by
  conv_lhs => unfold fetchRetryLoop
  rw [h]

/-- Any status actually returned by the retry loop is one on which
raise_for_status does not raise. -/
theorem retryLoop_some_not_raises (oracle : Nat → ReqOutcome) :
    ∀ rem a r n, retryLoop oracle a rem = (some r, n) → raisesForStatus r = false := by
  intro rem
  induction rem with
  | zero => intro a r n h; simp [retryLoop] at h
  | succ rem ih =>
    intro a r n h
    rcases ho : oracle a with s | _ | _
    · rw [retryLoop_response_eq oracle a rem s ho] at h
      by_cases hs : raisesForStatus s = true
      · rw [if_pos hs] at h
        split at h
        · simp at h
        · exact ih (a + 1) r n h
      · rw [if_neg hs] at h
        simp only [Prod.mk.injEq, Option.some.injEq] at h
        rw [← h.1]
        exact eq_false_of_ne_true hs
    · rw [retryLoop_timeout_eq oracle a rem ho] at h
      split at h
      · simp at h
      · exact ih (a + 1) r n h
    · rw [retryLoop_conn_eq oracle a rem ho] at h
      split at h
      · simp at h
      · exact ih (a + 1) r n h

/-- With at least one remaining attempt, the retry loop makes at least one
more attempt. -/
theorem retryLoop_attempts_ge (oracle : Nat → ReqOutcome) :
    ∀ rem a, 1 ≤ rem → a + 1 ≤ (retryLoop oracle a rem).2 := by
  intro rem
  induction rem with
  | zero => intro a h; omega
  | succ rem ih =>
    intro a _
    rcases ho : oracle a with s | _ | _
    · rw [retryLoop_response_eq oracle a rem s ho]
      by_cases hs : raisesForStatus s = true
      · rw [if_pos hs]
        split
        · simp
        · have := ih (a + 1) (by omega)
          omega
      · rw [if_neg hs]
    · rw [retryLoop_timeout_eq oracle a rem ho]
      split
      · simp
      · have := ih (a + 1) (by omega)
        omega
    · rw [retryLoop_conn_eq oracle a rem ho]
      split
      · simp
      · have := ih (a + 1) (by omega)
        omega

/-- When every attempt in range fails retriably, the loop exhausts all
remaining attempts and returns None. -/
theorem retryLoop_all_retriable (oracle : Nat → ReqOutcome) :
    ∀ rem a, (∀ i, a ≤ i → i < a + rem → retriable (oracle i) = true) →
      retryLoop oracle a rem = (none, a + rem) := by
  intro rem
  induction rem with
  | zero => intro a _; simp [retryLoop]
  | succ rem ih =>
    intro a hall
    have ha : retriable (oracle a) = true := hall a (le_refl a) (by omega)
    rcases ho : oracle a with s | _ | _ <;> rw [ho] at ha <;> simp only [retriable] at ha
    · rw [retryLoop_response_eq oracle a rem s ho, if_pos ha]
      split
      · rename_i h0
        subst h0
        simp
      · rw [ih (a + 1) (fun i h1 h2 => hall i (by omega) (by omega))]
        simp
        omega
    · rw [retryLoop_timeout_eq oracle a rem ho]
      split
      · rename_i h0
        subst h0
        simp
      · rw [ih (a + 1) (fun i h1 h2 => hall i (by omega) (by omega))]
        simp
        omega
    · rw [retryLoop_conn_eq oracle a rem ho]
      split
      · rename_i h0
        subst h0
        simp
      · rw [ih (a + 1) (fun i h1 h2 => hall i (by omega) (by omega))]
        simp
        omega

/-- Claim C3, counterexample: for an oracle that always answers HTTP 500,
the search tool's retry layer makes 3 attempts (not exactly one) and
returns None (not the response): raise_for_status turns the 4xx/5xx
response into an HTTPError, which the RequestException branch retries. -/
theorem C3_counterexample :
    performRequest (fun _ => .response 500) = (none, 3) ∧
    performRequest (fun _ => .response 500) ≠ (some 500, 1) := by
  constructor
  · rfl
  · intro h
    rw [show performRequest (fun _ => .response 500) = (none, 3) from rfl] at h
    simp at h

/-- Claim C3 (amended): the retry layer retries on timeout, on transient
network errors, and also on 4xx/5xx responses, because raise_for_status
converts them into retryable exceptions; a first-attempt 4xx/5xx response
leads to at least a second attempt, a 4xx/5xx status is never the returned
value, exhausting retriable attempts yields None after all 3 attempts, a
non-raising first response is returned after exactly one attempt, and the
content fetcher behaves the same way with its 2 attempts, reporting
network_error after an all-4xx/5xx run. -/
theorem C3_http_errors_retried :
    ∀ (oracle : Nat → ReqOutcome),
      (∀ s, oracle 0 = .response s → raisesForStatus s = true →
        2 ≤ (performRequest oracle).2) ∧
      (∀ r n, performRequest oracle = (some r, n) → raisesForStatus r = false) ∧
      (∀ s, oracle 0 = .response s → raisesForStatus s = false →
        performRequest oracle = (some s, 1)) ∧
      ((∀ i, i < 3 → retriable (oracle i) = true) →
        performRequest oracle = (none, 3)) ∧
      (∀ s t c (fo : Nat → FetchAttempt), (∀ i, fo i = .page s t c) →
        raisesForStatus s = true → fetchRetryLoop fo 0 2 = (.netFailed, 2)) := by
  intro oracle
  refine ⟨?_, ?_, ?_, ?_, ?_⟩
  · intro s h hs
    have hstep : performRequest oracle = retryLoop oracle 1 2 := by
      unfold performRequest
      rw [retryLoop_response_eq oracle 0 2 s h, if_pos hs]
      simp
    rw [hstep]
    exact retryLoop_attempts_ge oracle 2 1 (by omega)
  · intro r n h
    exact retryLoop_some_not_raises oracle 3 0 r n h
  · intro s h hs
    unfold performRequest
    rw [retryLoop_response_eq oracle 0 2 s h, if_neg (by simp [hs])]
  · intro hall
    exact retryLoop_all_retriable oracle 3 0 (fun i _ h2 => hall i (by omega))
  · intro s t c fo hfo hs
    have h1 : fetchRetryLoop fo 0 2 = fetchRetryLoop fo 1 1 := by
      rw [fetchRetryLoop_page_eq fo 0 1 s t c (hfo 0), if_pos hs]
      simp
    have h2 : fetchRetryLoop fo 1 1 = (.netFailed, 2) := by
      rw [fetchRetryLoop_page_eq fo 1 0 s t c (hfo 1), if_pos hs]
      simp
    rw [h1, h2]

/-- Claim C3, witness: with a 404 on the first attempt and 200 afterwards,
the retry layer retries (2 attempts) and returns the second response. -/
theorem C3_witness :
    2 ≤ (performRequest oracle404then200).2 ∧
    performRequest oracle404then200 = (some 200, 2) :=
  ⟨(C3_http_errors_retried oracle404then200).1 404 rfl rfl, rfl⟩

/-- Stable insertion grows the length by one. -/
theorem length_insertScored {α : Type} (x : Nat × α) (l : List (Nat × α)) :
    (insertScored x l).length = l.length + 1 := by
  induction l with
  | nil => rfl
  | cons y ys ih =>
    simp only [insertScored]
    split
    · simp [ih]
    · simp

/-- The stable descending sort preserves length. -/
theorem length_sortScoredDesc {α : Type} (l : List (Nat × α)) :
    (sortScoredDesc l).length = l.length := by
  induction l with
  | nil => rfl
  | cons x xs ih => simp [sortScoredDesc, length_insertScored, ih]

/-- Membership in a stable insertion. -/
theorem mem_insertScored {α : Type} (p x : Nat × α) (l : List (Nat × α)) :
    p ∈ insertScored x l ↔ p = x ∨ p ∈ l := by
  induction l with
  | nil => simp [insertScored]
  | cons y ys ih =>
    simp only [insertScored]
    split
    · simp only [List.mem_cons, ih]
      tauto
    · simp [List.mem_cons]

/-- The stable descending sort preserves membership. -/
theorem mem_sortScoredDesc {α : Type} (p : Nat × α) (l : List (Nat × α)) :
    p ∈ sortScoredDesc l ↔ p ∈ l := by
  induction l with
  | nil => simp [sortScoredDesc]
  | cons x xs ih => simp [sortScoredDesc, mem_insertScored, ih]

/-- Stable insertion preserves descending sortedness on the score. -/
theorem sorted_insertScored {α : Type} (x : Nat × α) (l : List (Nat × α))
    (h : List.Sorted (fun a b : Nat × α => b.1 ≤ a.1) l) :
    List.Sorted (fun a b : Nat × α => b.1 ≤ a.1) (insertScored x l) := by
  induction l with
  | nil => simp [insertScored]
  | cons y ys ih =>
    rw [List.sorted_cons] at h
    obtain ⟨hy, hys⟩ := h
    simp only [insertScored]
    split
    · rename_i hlt
      rw [List.sorted_cons]
      refine ⟨?_, ih hys⟩
      intro b hb
      rcases (mem_insertScored b x ys).mp hb with rfl | hbys
      · omega
      · exact hy b hbys
    · rename_i hnlt
      rw [List.sorted_cons]
      constructor
      · intro b hb
        rcases List.mem_cons.mp hb with rfl | hbys
        · omega
        · have := hy b hbys
          omega
      · rw [List.sorted_cons]
        exact ⟨hy, hys⟩

/-- The stable sort output is sorted by descending score. -/
theorem sorted_sortScoredDesc {α : Type} (l : List (Nat × α)) :
    List.Sorted (fun a b : Nat × α => b.1 ≤ a.1) (sortScoredDesc l) := by
  induction l with
  | nil => simp [sortScoredDesc]
  | cons x xs ih => exact sorted_insertScored x _ ih

/-- Stability of the insertion: among entries of one given score, the newly
inserted element lands first (it is only moved past strictly higher
scores). -/
theorem filter_insertScored {α : Type} (s : Nat) (x : Nat × α) (l : List (Nat × α)) :
    (insertScored x l).filter (fun p => p.1 == s) =
      if x.1 = s then x :: l.filter (fun p => p.1 == s)
      else l.filter (fun p => p.1 == s) := by
  induction l with
  | nil =>
    simp only [insertScored]
    by_cases hx : x.1 = s
    · simp [List.filter_cons, hx]
    · simp [List.filter_cons, hx]
  | cons y ys ih =>
    simp only [insertScored]
    split
    · rename_i hlt
      simp only [List.filter_cons]
      rw [ih]
      by_cases hx : x.1 = s
      · have hy : (y.1 == s) = false := by
          simp only [beq_eq_false_iff_ne, ne_eq]
          omega
        simp [hx, hy]
      · simp [hx]
    · simp only [List.filter_cons]
      by_cases hx : x.1 = s <;> simp [hx]

/-- Stability of the whole sort: for every score, the entries carrying that
score appear in the sorted output in their original order. -/
theorem filter_sortScoredDesc {α : Type} (s : Nat) (l : List (Nat × α)) :
    (sortScoredDesc l).filter (fun p => p.1 == s) =
      l.filter (fun p => p.1 == s) := by
  induction l with
  | nil => rfl
  | cons x xs ih =>
    simp only [sortScoredDesc, filter_insertScored, ih, List.filter_cons]
    by_cases hx : x.1 = s <;> simp [hx]

/-- Every scored entry carries its own positive score and comes from the
dataset. -/
theorem mem_scoredOf {kws : List String} {data : List Game} {p : Nat × Game}
    (h : p ∈ scoredOf kws data) :
    p.1 = gameScore kws p.2 ∧ 0 < p.1 ∧ p.2 ∈ data := by
  simp only [scoredOf, List.mem_filterMap] at h
  obtain ⟨g, hg, heq⟩ := h
  split at heq
  · rename_i hpos
    simp only [Option.some.injEq] at heq
    rw [← heq]
    exact ⟨rfl, hpos, hg⟩
  · simp at heq

/-- The scored list has one entry per positively scoring game. -/
theorem length_scoredOf (kws : List String) (data : List Game) :
    (scoredOf kws data).length =
      (data.filter fun g => decide (0 < gameScore kws g)).length := by
  induction data with
  | nil => rfl
  | cons g gs ih =>
    simp only [scoredOf] at ih ⊢
    by_cases hg : 0 < gameScore kws g
    · simp [List.filterMap_cons, List.filter_cons, hg, ih]
    · simp [List.filterMap_cons, List.filter_cons, hg, ih]

/-- Size, positivity and sortedness of the keyword-path result list. -/
theorem keyword_results_props (kws : List String) (data : List Game) :
    (((sortScoredDesc (scoredOf kws data)).take 10).map fun p => p.2).length =
      min 10 ((data.filter fun g => decide (0 < gameScore kws g)).length) ∧
    (∀ g ∈ ((sortScoredDesc (scoredOf kws data)).take 10).map fun p => p.2,
      0 < gameScore kws g) ∧
    List.Sorted (fun g1 g2 => gameScore kws g2 ≤ gameScore kws g1)
      (((sortScoredDesc (scoredOf kws data)).take 10).map fun p => p.2) := by
  refine ⟨?_, ?_, ?_⟩
  · simp [List.length_take, length_sortScoredDesc, length_scoredOf]
  · intro g hg
    simp only [List.mem_map] at hg
    obtain ⟨p, hp, rfl⟩ := hg
    have hp2 : p ∈ sortScoredDesc (scoredOf kws data) := List.mem_of_mem_take hp
    have hp3 := (mem_sortScoredDesc p _).mp hp2
    have hfacts := mem_scoredOf hp3
    omega
  · have hsorted := sorted_sortScoredDesc (scoredOf kws data)
    have htake : List.Pairwise (fun a b : Nat × Game => b.1 ≤ a.1)
        ((sortScoredDesc (scoredOf kws data)).take 10) :=
      hsorted.sublist (List.take_sublist ..)
    refine (List.pairwise_map).mpr ?_
    refine List.Pairwise.imp_of_mem ?_ htake
    intro a b ha hb hrel
    have ha2 := mem_scoredOf ((mem_sortScoredDesc a _).mp (List.mem_of_mem_take ha))
    have hb2 := mem_scoredOf ((mem_sortScoredDesc b _).mp (List.mem_of_mem_take hb))
    omega

/-- Claim C4, counterexample: on the dataset [cd-game, ab-game] and the
query with a duplicated keyword, the code scores the ab-game 2 (the token
ab counted twice) and ranks it first, while scoring by distinct keywords
gives both games score 1 and, with ties in dataset order, returns the
cd-game first.  The returned order differs, refuting the distinct-keyword
description. -/
theorem C4_counterexample :
    gameSearch [gameB, gameA] "ab ab cd" =
      .keywordResults ["ab", "ab", "cd"] [gameA, gameB] ∧
    claimGameSearch [gameB, gameA] "ab ab cd" =
      .keywordResults ["ab", "ab", "cd"] [gameB, gameA] ∧
    gameSearch [gameB, gameA] "ab ab cd" ≠
      claimGameSearch [gameB, gameA] "ab ab cd" := by
  refine ⟨rfl, rfl, ?_⟩
  intro h
  rw [show gameSearch [gameB, gameA] "ab ab cd" =
        .keywordResults ["ab", "ab", "cd"] [gameA, gameB] from rfl] at h
  rw [show claimGameSearch [gameB, gameA] "ab ab cd" =
        .keywordResults ["ab", "ab", "cd"] [gameB, gameA] from rfl] at h
  simp only [GameSearchResult.keywordResults.injEq] at h
  have hne : gameA ≠ gameB := by decide
  simp [hne] at h

/-- Claim C4 (amended): queries are tokenized on commas (including the
Arabic comma), spaces and tabs into stripped lowercased keywords of length
at least 2; each entry's score is the number of keyword TOKENS (with
multiplicity, not distinct keywords) occurring as substrings of its
searchable text; zero-scoring entries are excluded; survivors are sorted by
descending score with ties in original dataset order (stability, expressed
by the filter equality) and the top 10 returned; the random and fallback
paths return min(5, dataset size) entries.  All result sizes are at most 10
on the keyword path, at most 5 on the random paths, and never exceed the
dataset size. -/
theorem C4_scoring_multiplicity :
    ∀ (data : List Game) (query : String),
      (∀ k, gameSearch data query = .randomSample k → k ≤ 5 ∧ k ≤ data.length) ∧
      (∀ k, gameSearch data query = .noKeywordsRandom k → k ≤ 5 ∧ k ≤ data.length) ∧
      (∀ kws k, gameSearch data query = .fallbackRandom kws k →
        k ≤ 5 ∧ k ≤ data.length) ∧
      (∀ kws gs, gameSearch data query = .keywordResults kws gs →
        kws = tokenizeQuery (pyLower (pyStrip query)) ∧
        gs.length ≤ 10 ∧ gs.length ≤ data.length ∧
        gs.length = min 10 ((data.filter fun g => decide (0 < gameScore kws g)).length) ∧
        (∀ g ∈ gs, 0 < gameScore kws g) ∧
        List.Sorted (fun g1 g2 => gameScore kws g2 ≤ gameScore kws g1) gs) ∧
      (∀ (s : Nat) (l : List (Nat × Game)),
        (sortScoredDesc l).filter (fun p => p.1 == s) =
          l.filter (fun p => p.1 == s)) := by
  intro data query
  refine ⟨?_, ?_, ?_, ?_, fun s l => filter_sortScoredDesc s l⟩
  · intro k h
    simp only [gameSearch] at h
    split at h
    · simp at h
    · split at h
      · injection h with h1
        omega
      · split at h
        · simp at h
        · split at h
          · simp at h
          · simp at h
  · intro k h
    simp only [gameSearch] at h
    split at h
    · simp at h
    · split at h
      · simp at h
      · split at h
        · injection h with h1
          omega
        · split at h
          · simp at h
          · simp at h
  · intro kws k h
    simp only [gameSearch] at h
    split at h
    · simp at h
    · split at h
      · simp at h
      · split at h
        · simp at h
        · split at h
          · injection h with h1 h2
            omega
          · simp at h
  · intro kws gs h
    simp only [gameSearch] at h
    split at h
    · simp at h
    · split at h
      · simp at h
      · split at h
        · simp at h
        · split at h
          · simp at h
          · injection h with h1 h2
            subst h1
            subst h2
            obtain ⟨hlen, hpos, hsort⟩ :=
              keyword_results_props (tokenizeQuery (pyLower (pyStrip query))) data
            refine ⟨rfl, ?_, ?_, hlen, hpos, hsort⟩
            · omega
            · have hfle := List.length_filter_le
                (fun g => decide
                  (0 < gameScore (tokenizeQuery (pyLower (pyStrip query))) g)) data
              omega

/-- Claim C4, witness: a two-game dataset and a two-keyword query exercise
the keyword path; the theorem yields the size bound for the result. -/
theorem C4_witness :
    gameSearch [gameA, gameB] "ab cd" = .keywordResults ["ab", "cd"] [gameA, gameB] ∧
    [gameA, gameB].length ≤ 10 :=
  ⟨rfl, (((C4_scoring_multiplicity [gameA, gameB] "ab cd").2.2.2.1)
      ["ab", "cd"] [gameA, gameB] rfl).2.1⟩

/-- Claim C5: whenever the cleaned content holds more than 10 occurrences
of the two embedded-link prefixes (counted case-insensitively together),
the quality pipeline classifies it as a too-many-links page, regardless of
its length, its navigation keywords, or anything else: the link-density
check runs first and short-circuits. -/
theorem C5_link_density :
    ∀ (title content : String), 10 < linkTotal content →
      qualityChecks title content = .tooManyLinks (linkTotal content) := by
  intro title content h
  have hne : content ≠ "" := by
    intro h0
    subst h0
    have hz : linkTotal "" = 0 := rfl
    rw [hz] at h
    omega
  simp [qualityChecks, hne, h]

/-- Claim C5, witness: concrete content with 12 embedded links and more
than 150 characters is rejected as too_many_links. -/
theorem C5_witness :
    10 < linkTotal manyLinksContent ∧ 150 < manyLinksContent.length ∧
    qualityChecks "Stories" manyLinksContent = .tooManyLinks (linkTotal manyLinksContent) := by
  have h12 : linkTotal manyLinksContent = 12 := rfl
  refine ⟨by rw [h12]; omega, by decide, ?_⟩
  exact C5_link_density "Stories" manyLinksContent (by rw [h12]; omega)

/-- Claim C6 (amended): the content fetcher rejects every URL in the five
precondition classes (empty, non-http/https, missing trusted domain,
non-story path pattern, bare domain root) with a typed error before any
network request; the search-result link validator likewise rejects empty,
parse-failed/untrusted-domain and non-http/https URLs with zero requests,
but it does not check path patterns or the bare root. -/
theorem C6_validation_no_network :
    ∀ (oracle : Nat → FetchAttempt) (head : String → HeadOutcome) (url : String),
      ((pyStrip url = "" ∨
        ¬(startsWithStr (pyUnquote (pyStrip url)) "http://" = true ∨
          startsWithStr (pyUnquote (pyStrip url)) "https://" = true) ∨
        strContains (pyUnquote (pyStrip url)) "agadah.org.il" = false ∨
        invalidPatterns.any
          (fun p => strContains (pyLower (pyUnquote (pyStrip url))) p) = true ∨
        rstripSlash (pyUnquote (pyStrip url)) = "https://agadah.org.il" ∨
        rstripSlash (pyUnquote (pyStrip url)) = "http://agadah.org.il") →
        (fetcherRun oracle url).2 = 0 ∧
        (fetcherRun oracle url).1 ∈
          [FetchResult.errorEmptyUrl, FetchResult.errorInvalidFormat,
           FetchResult.errorNotAgadah, FetchResult.invalidUrlType,
           FetchResult.homepage]) ∧
      ((pyStrip url = "" ∨
        (pyUrlparse (pyUnquote (pyStrip url))).netloc = "" ∨
        strContains (pyUrlparse (pyUnquote (pyStrip url))).netloc
          "agadah.org.il" = false ∨
        ¬((pyUrlparse (pyUnquote (pyStrip url))).scheme = "http" ∨
          (pyUrlparse (pyUnquote (pyStrip url))).scheme = "https")) →
        validateAndCleanUrl head url = (none, 0)) := by
  intro oracle head url
  constructor
  · intro hcls
    simp only [fetcherRun]
    by_cases h1 : pyStrip url = ""
    · simp [h1]
    · by_cases h2 : startsWithStr (pyUnquote (pyStrip url)) "http://" = true ∨
          startsWithStr (pyUnquote (pyStrip url)) "https://" = true
      · by_cases h3 : strContains (pyUnquote (pyStrip url)) "agadah.org.il" = false
        · simp [h1, h2, h3]
        · by_cases h4 : invalidPatterns.any
              (fun p => strContains (pyLower (pyUnquote (pyStrip url))) p) = true
          · simp [h1, h2, h3, h4]
          · by_cases h5 : rstripSlash (pyUnquote (pyStrip url)) = "https://agadah.org.il" ∨
                rstripSlash (pyUnquote (pyStrip url)) = "http://agadah.org.il"
            · simp [h1, h2, h3, h4, h5]
            · exfalso
              rcases hcls with hc | hc | hc | hc | hc | hc
              · exact h1 hc
              · exact hc h2
              · exact h3 hc
              · exact h4 hc
              · exact h5 (Or.inl hc)
              · exact h5 (Or.inr hc)
      · simp [h1, h2]
  · intro hcls
    simp only [validateAndCleanUrl]
    by_cases h1 : pyStrip url = ""
    · simp [h1]
    · by_cases h2 : (pyUrlparse (pyUnquote (pyStrip url))).netloc = "" ∨
          strContains (pyUrlparse (pyUnquote (pyStrip url))).netloc
            "agadah.org.il" = false
      · simp [h1, h2]
      · by_cases h3 : (pyUrlparse (pyUnquote (pyStrip url))).scheme = "http" ∨
            (pyUrlparse (pyUnquote (pyStrip url))).scheme = "https"
        · exfalso
          rcases hcls with hc | hc | hc | hc
          · exact h1 hc
          · exact h2 (Or.inl hc)
          · exact h2 (Or.inr hc)
          · exact hc h3
        · simp [h1, h2, h3]

/-- Claim C6, counterexample: the search-result link validator accepts a
/category/ URL on the trusted domain and issues one HEAD request for it,
refuting the part of the claim that says search-result link validation
rejects non-story path patterns with zero network requests. -/
theorem C6_counterexample :
    validateAndCleanUrl headOk "https://agadah.org.il/category/x" =
      (some "https://agadah.org.il/category/x", 1) ∧
    strContains (pyLower "https://agadah.org.il/category/x") "/category/" = true :=
  ⟨rfl, rfl⟩

/-- Claim C6, witness: a URL on a foreign domain is rejected by the fetcher
with zero requests, and a scheme-less URL as well as an ftp URL on the
trusted domain are rejected by the search validator with zero requests. -/
theorem C6_witness :
    (fetcherRun oracleTimeout "https://example.com/story/x").2 = 0 ∧
    validateAndCleanUrl headOk "notaurl" = (none, 0) ∧
    validateAndCleanUrl headOk "ftp://agadah.org.il/x" = (none, 0) :=
  ⟨((C6_validation_no_network oracleTimeout headOk "https://example.com/story/x").1
      (Or.inr (Or.inr (Or.inl rfl)))).1,
   (C6_validation_no_network oracleTimeout headOk "notaurl").2
      (Or.inr (Or.inl rfl)),
   (C6_validation_no_network oracleTimeout headOk "ftp://agadah.org.il/x").2
      (Or.inr (Or.inr (Or.inr (by decide))))⟩

/-- Claim C7: under the search validator's preconditions (non-empty URL,
trusted-domain netloc, http/https scheme), a HEAD status of 404 or any
status of at least 400 drops the candidate, while a network error on the
HEAD check keeps it and the cleaned canonical URL is returned; a sub-400
status also keeps it.  Exactly one request is issued in each case. -/
theorem C7_head_failures_nonfatal :
    ∀ (head : String → HeadOutcome) (url : String),
      pyStrip url ≠ "" →
      (pyUrlparse (pyUnquote (pyStrip url))).netloc ≠ "" →
      strContains (pyUrlparse (pyUnquote (pyStrip url))).netloc
        "agadah.org.il" = true →
      ((pyUrlparse (pyUnquote (pyStrip url))).scheme = "http" ∨
        (pyUrlparse (pyUnquote (pyStrip url))).scheme = "https") →
      (∀ code, head (cleanUrlOf url) = .status code → 400 ≤ code →
        validateAndCleanUrl head url = (none, 1)) ∧
      (head (cleanUrlOf url) = .netError →
        validateAndCleanUrl head url = (some (cleanUrlOf url), 1)) ∧
      (∀ code, head (cleanUrlOf url) = .status code → code < 400 →
        validateAndCleanUrl head url = (some (cleanUrlOf url), 1)) := by
  intro head url h1 h2 h3 h4
  have hcond1 : ¬((pyUrlparse (pyUnquote (pyStrip url))).netloc = "" ∨
      strContains (pyUrlparse (pyUnquote (pyStrip url))).netloc
        "agadah.org.il" = false) := by
    rintro (hc | hc)
    · exact h2 hc
    · rw [h3] at hc
      simp at hc
  have hcond2 : ¬¬((pyUrlparse (pyUnquote (pyStrip url))).scheme = "http" ∨
      (pyUrlparse (pyUnquote (pyStrip url))).scheme = "https") := not_not.mpr h4
  refine ⟨?_, ?_, ?_⟩
  · intro code hhead hge
    simp only [validateAndCleanUrl]
    rw [if_neg h1, if_neg hcond1, if_neg hcond2, hhead]
    by_cases hc4 : code = 404
    · simp [hc4]
    · simp [hc4, hge]
  · intro hhead
    simp only [validateAndCleanUrl]
    rw [if_neg h1, if_neg hcond1, if_neg hcond2, hhead]
  · intro code hhead hlt
    simp only [validateAndCleanUrl]
    rw [if_neg h1, if_neg hcond1, if_neg hcond2, hhead]
    have hne : code ≠ 404 := by omega
    have hnge : ¬400 ≤ code := by omega
    simp [hne, hnge]

/-- Claim C7, witness: on a concrete story URL, a 404 HEAD answer drops the
candidate and a HEAD network error keeps it. -/
theorem C7_witness :
    validateAndCleanUrl head404 "https://agadah.org.il/story/x" = (none, 1) ∧
    validateAndCleanUrl headDown "https://agadah.org.il/story/x" =
      (some (cleanUrlOf "https://agadah.org.il/story/x"), 1) :=
  ⟨(C7_head_failures_nonfatal head404 "https://agadah.org.il/story/x"
      (by decide) (by decide) rfl (Or.inr rfl)).1 404 rfl (by omega),
   (C7_head_failures_nonfatal headDown "https://agadah.org.il/story/x"
      (by decide) (by decide) rfl (Or.inr rfl)).2.1 rfl⟩

/-- When no candidate parses, the match loop returns None. -/
theorem firstParse_none (loads : String → Option Json) :
    ∀ ms, (∀ m ∈ ms, loads m = none) → firstParse loads ms = none := by
  intro ms
  induction ms with
  | nil => intro _; rfl
  | cons m ms ih =>
    intro hall
    have hm := hall m (List.mem_cons_self m ms)
    simp only [firstParse, hm]
    exact ih fun x hx => hall x (List.mem_cons_of_mem m hx)

/-- Claim C8: structured response recovery first attempts a direct parse
of the whole text and returns its result when it succeeds; on failure it
parses the brace-delimited substrings (one nesting level, in order of
appearance) and returns the first success; when nothing parses it returns
None, and being a total function it propagates no exception.  On the
concrete example text with a backtick-fenced object the recovery returns
the record mapping a to 1. -/
theorem C8_json_recovery :
    ∀ (loads : String → Option Json) (text : String),
      (pyStrip text = "" → extract_json_from_text loads text = none) ∧
      (pyStrip text ≠ "" → ∀ v, loads text = some v →
        extract_json_from_text loads text = some v) ∧
      (pyStrip text ≠ "" → loads text = none →
        extract_json_from_text loads text =
          firstParse loads (regexJsonMatches text)) ∧
      (loads text = none → (∀ m ∈ regexJsonMatches text, loads m = none) →
        extract_json_from_text loads text = none) ∧
      extract_json_from_text jsonLoads exampleText = some (.obj [("a", .num 1)]) := by
  intro loads text
  refine ⟨?_, ?_, ?_, ?_, rfl⟩
  · intro h
    simp [extract_json_from_text, h]
  · intro h v hv
    simp [extract_json_from_text, h, hv]
  · intro h hv
    simp [extract_json_from_text, h, hv]
  · intro hv hall
    by_cases h : pyStrip text = ""
    · simp [extract_json_from_text, h]
    · simp only [extract_json_from_text, if_neg h, hv]
      exact firstParse_none loads (regexJsonMatches text) hall

/-- Claim C8, witness: a text whose direct parse succeeds is returned
as-is by the recovery. -/
theorem C8_witness :
    extract_json_from_text jsonLoads "\x7b\"a\":1\x7d" = some (.obj [("a", .num 1)]) :=
  (C8_json_recovery jsonLoads "\x7b\"a\":1\x7d").2.1 (by decide) (.obj [("a", .num 1)]) rfl

/-- Claim C9: for every body (modelled by its logging calls and its
normal-or-raising outcome), every clock and every input, the scoped run
recorder finalizes exactly once, the resulting trace has a non-null end
time and duration, the complete trace is persisted as a single JSON
document, and when the body raises, the exception is re-raised and the
triggering error is present in the trace's error log. -/
theorem C9_finalize_on_every_path :
    ∀ (clock : Nat → Nat) (input : String) (events : List LogEvent)
      (outcome : Except String Unit),
      (run_logger clock input events outcome).finalizeCount = 1 ∧
      (run_logger clock input events outcome).finalData.end_time.isSome = true ∧
      (run_logger clock input events outcome).finalData.duration_seconds.isSome = true ∧
      (run_logger clock input events outcome).persisted =
        [(run_logger clock input events outcome).finalData] ∧
      (∀ e, outcome = .error e →
        (run_logger clock input events outcome).raised = some e ∧
        ∃ rec ∈ (run_logger clock input events outcome).finalData.errors,
          rec.message = "Run failed with exception" ∧ rec.exception = some e) := by
  intro clock input events outcome
  match outcome with
  | .ok _ =>
    refine ⟨rfl, rfl, rfl, rfl, ?_⟩
    intro e he
    exact absurd he (by simp)
  | .error e0 =>
    refine ⟨rfl, rfl, rfl, rfl, ?_⟩
    intro e he
    have he0 : e = e0 := by
      injection he with h
      exact h.symm
    subst he0
    refine ⟨rfl, ?_⟩
    refine ⟨{ message := "Run failed with exception",
              timestamp := clock (applyEvents clock 1
                (log_input input (initRunData (Nat.repr (clock 0)) (clock 0)))
                events).2,
              exception := some e }, ?_, rfl, rfl⟩
    simp [run_logger, RunLogger.finalize, log_error]

/-- Splitting never returns an empty list of segments. -/
theorem splitOnChar_ne_nil (sep : Char) (l : List Char) : splitOnChar sep l ≠ [] := by
  induction l with
  | nil => simp [splitOnChar]
  | cons c rest ih =>
    simp only [splitOnChar]
    split
    · simp
    · split <;> simp

/-- Segments contain no separator. -/
theorem not_mem_of_mem_splitOnChar (sep : Char) :
    ∀ (l m : List Char), m ∈ splitOnChar sep l → sep ∉ m := by
  intro l
  induction l with
  | nil =>
    intro m hm
    simp only [splitOnChar, List.mem_singleton] at hm
    subst hm
    simp
  | cons c rest ih =>
    intro m hm
    simp only [splitOnChar] at hm
    by_cases hc : c = sep
    · rw [if_pos hc] at hm
      rcases List.mem_cons.mp hm with rfl | h2
      · simp
      · exact ih m h2
    · rw [if_neg hc] at hm
      rcases hsplit : splitOnChar sep rest with _ | ⟨l1, ls⟩
      · exact absurd hsplit (splitOnChar_ne_nil sep rest)
      · rw [hsplit] at hm
        rcases List.mem_cons.mp hm with rfl | h2
        · intro hmem
          rcases List.mem_cons.mp hmem with h3 | h3
          · exact hc h3.symm
          · exact ih l1 (by rw [hsplit]; exact List.mem_cons_self l1 ls) h3
        · exact ih m (by rw [hsplit]; exact List.mem_cons_of_mem l1 h2)

/-- The first segment is a prefix of the split list. -/
theorem splitOnChar_first_prefix (sep : Char) :
    ∀ (l m : List Char) (ms : List (List Char)),
      splitOnChar sep l = m :: ms → m <+: l := by
  intro l
  induction l with
  | nil =>
    intro m ms h
    simp only [splitOnChar] at h
    injection h with h1 _
    subst h1
    exact List.nil_prefix
  | cons c rest ih =>
    intro m ms h
    simp only [splitOnChar] at h
    by_cases hc : c = sep
    · rw [if_pos hc] at h
      injection h with h1 _
      subst h1
      exact List.nil_prefix
    · rw [if_neg hc] at h
      rcases hsplit : splitOnChar sep rest with _ | ⟨l1, ls⟩
      · exact absurd hsplit (splitOnChar_ne_nil sep rest)
      · rw [hsplit] at h
        injection h with h1 _
        subst h1
        obtain ⟨t, ht⟩ := ih l1 ls hsplit
        exact ⟨t, by rw [List.cons_append, ht]⟩

/-- Every segment is a contiguous substring of the split list. -/
theorem mem_splitOnChar_part (sep : Char) :
    ∀ (l m : List Char), m ∈ splitOnChar sep l → m <:+: l := by
  intro l
  induction l with
  | nil =>
    intro m hm
    simp only [splitOnChar, List.mem_singleton] at hm
    subst hm
    exact List.nil_infix
  | cons c rest ih =>
    intro m hm
    simp only [splitOnChar] at hm
    by_cases hc : c = sep
    · rw [if_pos hc] at hm
      rcases List.mem_cons.mp hm with rfl | h2
      · exact List.nil_infix
      · exact List.infix_cons (ih m h2)
    · rw [if_neg hc] at hm
      rcases hsplit : splitOnChar sep rest with _ | ⟨l1, ls⟩
      · exact absurd hsplit (splitOnChar_ne_nil sep rest)
      · rw [hsplit] at hm
        rcases List.mem_cons.mp hm with rfl | h2
        · obtain ⟨t, ht⟩ := splitOnChar_first_prefix sep rest l1 ls hsplit
          exact ⟨[], t, by simp [ht]⟩
        · exact List.infix_cons (ih m (by rw [hsplit]; exact List.mem_cons_of_mem l1 h2))

/-- dropTrail returns a prefix: the dropped trailing whitespace completes
the original list. -/
theorem dropTrail_append_eq : ∀ l : List Char, ∃ t, l = dropTrail l ++ t := by
  intro l
  induction l with
  | nil => exact ⟨[], rfl⟩
  | cons c rest ih =>
    obtain ⟨t, ht⟩ := ih
    simp only [dropTrail]
    rcases hdt : dropTrail rest with _ | ⟨d, ds⟩
    · rw [hdt] at ht
      by_cases hsp : isSp c = true
      · exact ⟨c :: rest, by simp [hsp]⟩
      · refine ⟨rest, ?_⟩
        simp [hsp]
    · rw [hdt] at ht
      exact ⟨t, by simp [ht]⟩

/-- dropTrail is a prefix of its input. -/
theorem dropTrail_front (l : List Char) : dropTrail l <+: l := by
  obtain ⟨t, ht⟩ := dropTrail_append_eq l
  exact ⟨t, ht.symm⟩

/-- stripChars is a contiguous substring of its input. -/
theorem stripChars_part (l : List Char) : stripChars l <:+: l := by
  have h1 : l.dropWhile isSp <:+ l :=
    ⟨l.takeWhile isSp, List.takeWhile_append_dropWhile ..⟩
  have h2 := dropTrail_front (l.dropWhile isSp)
  exact List.IsInfix.trans (List.IsPrefix.isInfix h2) (List.IsSuffix.isInfix h1)

/-- Unfolding equation of dropTrail on a cons cell. -/
theorem dropTrail_cons (c : Char) (rest : List Char) :
    dropTrail (c :: rest) =
      match dropTrail rest with
      | [] => if isSp c then [] else [c]
      | l => c :: l := rfl

/-- A nonempty dropTrail keeps the original head. -/
theorem dropTrail_head? :
    ∀ l : List Char, dropTrail l ≠ [] → (dropTrail l).head? = l.head? := by
  intro l
  cases l with
  | nil => intro h; simp [dropTrail] at h
  | cons c rest =>
    intro h
    rw [dropTrail_cons] at h ⊢
    cases hdt : dropTrail rest with
    | nil =>
      rw [hdt] at h
      by_cases hsp : isSp c = true
      · simp [hsp] at h
      · simp [hsp]
    | cons d ds => simp

/-- The last character surviving dropTrail is not whitespace. -/
theorem getLast?_dropTrail_not :
    ∀ (l : List Char) (c : Char), (dropTrail l).getLast? = some c → isSp c = false := by
  intro l
  induction l with
  | nil => intro c h; simp [dropTrail] at h
  | cons x rest ih =>
    intro c h
    rw [dropTrail_cons] at h
    cases hdt : dropTrail rest with
    | nil =>
      rw [hdt] at h
      by_cases hsp : isSp x = true
      · simp [hsp] at h
      · simp [hsp] at h
        rw [← h]
        exact eq_false_of_ne_true hsp
    | cons d ds =>
      rw [hdt] at h
      change (x :: d :: ds).getLast? = some c at h
      rw [List.getLast?_cons_cons, ← hdt] at h
      exact ih c h

/-- The first character surviving dropWhile is not whitespace. -/
theorem head?_dropWhile_isSp :
    ∀ (l : List Char) (c : Char), (l.dropWhile isSp).head? = some c → isSp c = false := by
  intro l
  induction l with
  | nil => intro c h; simp at h
  | cons x rest ih =>
    intro c h
    rw [List.dropWhile_cons] at h
    split at h
    · exact ih c h
    · rename_i hx
      simp only [List.head?_cons, Option.some.injEq] at h
      rw [← h]
      exact eq_false_of_ne_true hx

/-- The head surviving stripChars is not whitespace. -/
theorem head?_stripChars_not (l : List Char) (c : Char)
    (h : (stripChars l).head? = some c) : isSp c = false := by
  have hne : stripChars l ≠ [] := by
    intro h0
    rw [h0] at h
    simp at h
  rw [stripChars, dropTrail_head? (l.dropWhile isSp) hne] at h
  exact head?_dropWhile_isSp l c h

/-- The last character surviving stripChars is not whitespace. -/
theorem getLast?_stripChars_not (l : List Char) (c : Char)
    (h : (stripChars l).getLast? = some c) : isSp c = false :=
  getLast?_dropTrail_not (l.dropWhile isSp) c h

/-- dropWhile is the identity when the head is not whitespace. -/
theorem dropWhile_isSp_eq_self (l : List Char)
    (h : ∀ c, l.head? = some c → isSp c = false) : l.dropWhile isSp = l := by
  cases l with
  | nil => rfl
  | cons x rest =>
    rw [List.dropWhile_cons, if_neg]
    rw [h x rfl]
    simp

/-- dropTrail is the identity when the last character is not whitespace. -/
theorem dropTrail_eq_self :
    ∀ l : List Char, (∀ c, l.getLast? = some c → isSp c = false) → dropTrail l = l := by
  intro l
  induction l with
  | nil => intro _; rfl
  | cons x rest ih =>
    intro h
    cases rest with
    | nil =>
      have hx := h x (by simp)
      simp [dropTrail, hx]
    | cons r rs =>
      rw [dropTrail_cons]
      have hdt : dropTrail (r :: rs) = r :: rs := by
        apply ih
        intro c hc
        apply h c
        rw [List.getLast?_cons_cons]
        exact hc
      rw [hdt]

/-- stripChars is the identity on lists already stripped at both ends. -/
theorem stripChars_eq_self (l : List Char)
    (hh : ∀ c, l.head? = some c → isSp c = false)
    (hl : ∀ c, l.getLast? = some c → isSp c = false) : stripChars l = l := by
  rw [stripChars, dropWhile_isSp_eq_self l hh]
  exact dropTrail_eq_self l hl

/-- stripChars is idempotent. -/
theorem stripChars_idem (l : List Char) : stripChars (stripChars l) = stripChars l := by
  rcases hs : stripChars l with _ | ⟨c, cs⟩
  · rfl
  · rw [← hs]
    exact stripChars_eq_self (stripChars l)
      (fun c hc => head?_stripChars_not l c hc)
      (fun c hc => getLast?_stripChars_not l c hc)

/-- NoTwo restricts to contiguous substrings. -/
theorem noTwo_part {a : Char} {l m : List Char} (h : NoTwo a l) (hm : m <:+: l) :
    NoTwo a m :=
  List.Chain'.infix h hm

/-- A list not containing the character trivially has no adjacent pair of
it. -/
theorem noTwo_of_not_mem {a : Char} : ∀ {l : List Char}, a ∉ l → NoTwo a l := by
  intro l
  induction l with
  | nil => intro _; exact List.chain'_nil
  | cons c rest ih =>
    intro h
    refine List.chain'_cons'.mpr ⟨?_, ih fun hm => h (List.mem_cons_of_mem c hm)⟩
    intro y _ hpair
    exact h (hpair.1 ▸ List.mem_cons_self c rest)

/-- The newline-collapsing pass is the identity on lists without adjacent
newlines (given a safe entry state). -/
theorem collapseNLAux_eq_self :
    ∀ (l : List Char) (n : Nat), NoTwo '\n' l → (2 ≤ n → l.head? ≠ some '\n') →
      collapseNLAux n l = l := by
  intro l
  induction l with
  | nil => intro n _ _; rfl
  | cons c rest ih =>
    intro n hnd hhead
    simp only [collapseNLAux]
    by_cases hc : c = '\n'
    · rw [if_pos hc]
      have hn2 : ¬2 ≤ n := by
        intro h2
        exact hhead h2 (by rw [hc]; rfl)
      rw [if_neg hn2]
      congr 1
      apply ih (n + 1)
      · exact List.Chain'.tail hnd
      · intro _ hh
        subst hc
        obtain ⟨hp, _⟩ := List.chain'_cons'.mp hnd
        exact hp '\n' hh ⟨rfl, rfl⟩
    · rw [if_neg hc]
      congr 1
      apply ih 0
      · exact List.Chain'.tail hnd
      · intro h2
        omega

/-- The space-collapsing pass is the identity on lists without adjacent
spaces (given a safe entry state). -/
theorem collapseSpAux_eq_self :
    ∀ (l : List Char) (b : Bool), NoTwo ' ' l → (b = true → l.head? ≠ some ' ') →
      collapseSpAux b l = l := by
  intro l
  induction l with
  | nil => intro b _ _; rfl
  | cons c rest ih =>
    intro b hnd hhead
    simp only [collapseSpAux]
    by_cases hc : c = ' '
    · rw [if_pos hc]
      have hb : b = false := by
        cases b with
        | false => rfl
        | true => exact absurd (by rw [hc]; rfl) (hhead rfl)
      subst hb
      simp only [Bool.false_eq_true, if_false]
      congr 1
      apply ih true
      · exact List.Chain'.tail hnd
      · intro _ hh
        subst hc
        obtain ⟨hp, _⟩ := List.chain'_cons'.mp hnd
        exact hp ' ' hh ⟨rfl, rfl⟩
    · rw [if_neg hc]
      congr 1
      apply ih false
      · exact List.Chain'.tail hnd
      · intro hcontra
        exact absurd hcontra (by simp)

/-- After the skipping state, the space-collapsing pass never emits a
leading space. -/
theorem collapseSpAux_true_head :
    ∀ (l : List Char) (c : Char), (collapseSpAux true l).head? = some c → c ≠ ' ' := by
  intro l
  induction l with
  | nil => intro c h; simp [collapseSpAux] at h
  | cons x rest ih =>
    intro c h
    simp only [collapseSpAux] at h
    by_cases hx : x = ' '
    · rw [if_pos hx] at h
      simp only [if_true] at h
      exact ih c h
    · rw [if_neg hx] at h
      simp only [List.head?_cons, Option.some.injEq] at h
      rw [← h]
      exact hx

/-- The space-collapsing pass leaves no adjacent spaces. -/
theorem noTwo_collapseSpAux :
    ∀ (l : List Char) (b : Bool), NoTwo ' ' (collapseSpAux b l) := by
  intro l
  induction l with
  | nil => intro b; exact List.chain'_nil
  | cons c rest ih =>
    intro b
    simp only [collapseSpAux]
    by_cases hc : c = ' '
    · rw [if_pos hc]
      cases b with
      | true => simpa using ih true
      | false =>
        simp only [Bool.false_eq_true, if_false]
        refine List.chain'_cons'.mpr ⟨?_, ih true⟩
        intro y hy hpair
        exact collapseSpAux_true_head rest y hy hpair.2
    · rw [if_neg hc]
      refine List.chain'_cons'.mpr ⟨?_, ih false⟩
      intro y _ hpair
      exact hc hpair.1

/-- Unfolding equation of joinNl on two or more lines. -/
theorem joinNl_cons_cons (m m2 : List Char) (ms : List (List Char)) :
    joinNl (m :: m2 :: ms) = m ++ '\n' :: joinNl (m2 :: ms) := rfl

/-- A join of nonempty lines is nonempty. -/
theorem joinNl_ne_nil :
    ∀ (L : List (List Char)), L ≠ [] → (∀ m ∈ L, m ≠ []) → joinNl L ≠ [] := by
  intro L hL hall
  cases L with
  | nil => exact absurd rfl hL
  | cons m ms =>
    cases ms with
    | nil => exact hall m (List.mem_cons_self m [])
    | cons m2 ms2 =>
      rw [joinNl_cons_cons]
      intro hcontra
      rcases List.append_eq_nil.mp hcontra with ⟨_, h2⟩
      exact List.cons_ne_nil _ _ h2

/-- The head of a join is the head of its first (nonempty) line. -/
theorem joinNl_head? (m : List Char) (ms : List (List Char)) (hm : m ≠ []) :
    (joinNl (m :: ms)).head? = m.head? := by
  cases ms with
  | nil => rfl
  | cons m2 ms2 =>
    rw [joinNl_cons_cons]
    cases m with
    | nil => exact absurd rfl hm
    | cons c cs => simp

/-- The last character of a join of nonempty lines is the last character
of its last line, so it inherits the not-whitespace property. -/
theorem joinNl_getLast_not_sp :
    ∀ L : List (List Char),
      (∀ m ∈ L, m ≠ [] ∧ ∀ c, m.getLast? = some c → isSp c = false) →
      ∀ c, (joinNl L).getLast? = some c → isSp c = false := by
  intro L
  induction L with
  | nil => intro _ c h; simp [joinNl] at h
  | cons m ms ih =>
    intro hall c h
    cases ms with
    | nil => exact (hall m (List.mem_cons_self m [])).2 c h
    | cons m2 ms2 =>
      rw [joinNl_cons_cons] at h
      have hne : joinNl (m2 :: ms2) ≠ [] :=
        joinNl_ne_nil (m2 :: ms2) (List.cons_ne_nil m2 ms2)
          (fun x hx => (hall x (List.mem_cons_of_mem m hx)).1)
      rw [List.getLast?_append_cons m '\n' (joinNl (m2 :: ms2))] at h
      rcases hj : joinNl (m2 :: ms2) with _ | ⟨d, ds⟩
      · exact absurd hj hne
      · rw [hj, List.getLast?_cons_cons, ← hj] at h
        exact ih (fun x hx => hall x (List.mem_cons_of_mem m hx)) c h

/-- Joining with a non-newline pair character preserves the no-adjacent
invariant. -/
theorem noTwo_joinNl_sp :
    ∀ (a : Char) (L : List (List Char)), a ≠ '\n' → (∀ m ∈ L, NoTwo a m) →
      NoTwo a (joinNl L) := by
  intro a L ha
  induction L with
  | nil => intro _; exact List.chain'_nil
  | cons m ms ih =>
    intro hall
    cases ms with
    | nil => exact hall m (List.mem_cons_self m [])
    | cons m2 ms2 =>
      rw [joinNl_cons_cons]
      refine List.chain'_append.mpr ⟨hall m (List.mem_cons_self m _), ?_, ?_⟩
      · refine List.chain'_cons'.mpr ⟨?_, ih fun x hx => hall x (List.mem_cons_of_mem m hx)⟩
        intro y _ hpair
        exact ha hpair.1.symm
      · intro x _ y hy hpair
        have hyy : y = '\n' := by
          simp only [List.head?_cons, Option.mem_def, Option.some.injEq] at hy
          exact hy.symm
        exact ha (hpair.2.symm.trans hyy)

/-- The join of nonempty newline-free lines has no adjacent newlines. -/
theorem noTwo_joinNl_nl :
    ∀ L : List (List Char), (∀ m ∈ L, m ≠ [] ∧ '\n' ∉ m) →
      NoTwo '\n' (joinNl L) := by
  intro L
  induction L with
  | nil => intro _; exact List.chain'_nil
  | cons m ms ih =>
    intro hall
    cases ms with
    | nil => exact noTwo_of_not_mem (hall m (List.mem_cons_self m [])).2
    | cons m2 ms2 =>
      rw [joinNl_cons_cons]
      refine List.chain'_append.mpr
        ⟨noTwo_of_not_mem (hall m (List.mem_cons_self m _)).2, ?_, ?_⟩
      · refine List.chain'_cons'.mpr
          ⟨?_, ih fun x hx => hall x (List.mem_cons_of_mem m hx)⟩
        intro y hy hpair
        have hm2 := hall m2 (List.mem_cons_of_mem m (List.mem_cons_self m2 ms2))
        rw [joinNl_head? m2 ms2 hm2.1] at hy
        exact hm2.2 (hpair.2 ▸ List.mem_of_mem_head? hy)
      · intro x hx y hy hpair
        have hm := hall m (List.mem_cons_self m _)
        exact hm.2 (hpair.1 ▸ List.mem_of_mem_getLast? hx)

/-- Splitting a separator-free list yields that single segment. -/
theorem splitOnChar_not_mem_eq (sep : Char) :
    ∀ m : List Char, sep ∉ m → splitOnChar sep m = [m] := by
  intro m
  induction m with
  | nil => intro _; rfl
  | cons c r ih =>
    intro h
    have hc : ¬c = sep := fun hcs => h (hcs ▸ List.mem_cons_self c r)
    simp only [splitOnChar, if_neg hc]
    rw [ih fun hm => h (List.mem_cons_of_mem c hm)]

/-- Splitting after a separator-free chunk peels off that chunk. -/
theorem splitOnChar_append_sep (sep : Char) :
    ∀ (m t : List Char), sep ∉ m →
      splitOnChar sep (m ++ sep :: t) = m :: splitOnChar sep t := by
  intro m
  induction m with
  | nil =>
    intro t _
    simp [splitOnChar]
  | cons c r ih =>
    intro t h
    have hc : ¬c = sep := fun hcs => h (hcs ▸ List.mem_cons_self c r)
    simp only [List.cons_append, splitOnChar, if_neg hc, List.append_eq]
    rw [ih t fun hm => h (List.mem_cons_of_mem c hm)]

/-- Splitting a join of newline-free lines recovers the lines. -/
theorem splitOnChar_joinNl :
    ∀ L : List (List Char), L ≠ [] → (∀ m ∈ L, '\n' ∉ m) →
      splitOnChar '\n' (joinNl L) = L := by
  intro L
  induction L with
  | nil => intro h _; exact absurd rfl h
  | cons m ms ih =>
    intro _ hall
    cases ms with
    | nil => exact splitOnChar_not_mem_eq '\n' m (hall m (List.mem_cons_self m []))
    | cons m2 ms2 =>
      rw [joinNl_cons_cons,
          splitOnChar_append_sep '\n' m (joinNl (m2 :: ms2))
            (hall m (List.mem_cons_self m _)),
          ih (List.cons_ne_nil m2 ms2) fun x hx => hall x (List.mem_cons_of_mem m hx)]

/-- Core of the normalizer idempotence: on a nonempty normalized result,
running the normalization again changes nothing, because the output has no
adjacent newline or space runs, its lines are stripped and nonempty, and
the outer strip is already a no-op. -/
theorem cleanTextList_idem (l : List Char) (hne : cleanTextList l ≠ []) :
    cleanTextList (cleanTextList l) = cleanTextList l := by
  have hdef : cleanTextList l =
      stripChars (joinNl (((splitOnChar '\n' (collapseSp (collapseNL l))).map
        stripChars).filter fun m => !m.isEmpty)) := rfl
  set kept := ((splitOnChar '\n' (collapseSp (collapseNL l))).map stripChars).filter
    (fun m => !m.isEmpty) with hkeptdef
  have hF0 : ∀ m ∈ kept,
      (∃ seg ∈ splitOnChar '\n' (collapseSp (collapseNL l)), m = stripChars seg) ∧
      m ≠ [] := by
    intro m hm
    obtain ⟨hmap, hp⟩ := List.mem_filter.mp hm
    obtain ⟨seg, hseg, hstrip⟩ := List.mem_map.mp hmap
    refine ⟨⟨seg, hseg, hstrip.symm⟩, ?_⟩
    simpa using hp
  have hF2 : ∀ m ∈ kept, '\n' ∉ m := by
    intro m hm hmem
    obtain ⟨⟨seg, hseg, hstrip⟩, _⟩ := hF0 m hm
    rw [hstrip] at hmem
    exact not_mem_of_mem_splitOnChar '\n' _ seg hseg
      ((stripChars_part seg).subset hmem)
  have hF3 : ∀ m ∈ kept, NoTwo ' ' m := by
    intro m hm
    obtain ⟨⟨seg, hseg, hstrip⟩, _⟩ := hF0 m hm
    rw [hstrip]
    exact noTwo_part
      (noTwo_part (noTwo_collapseSpAux (collapseNL l) false)
        (mem_splitOnChar_part '\n' _ seg hseg))
      (stripChars_part seg)
  have hF4h : ∀ m ∈ kept, ∀ c, m.head? = some c → isSp c = false := by
    intro m hm c hc
    obtain ⟨⟨seg, _, hstrip⟩, _⟩ := hF0 m hm
    rw [hstrip] at hc
    exact head?_stripChars_not seg c hc
  have hF4l : ∀ m ∈ kept, ∀ c, m.getLast? = some c → isSp c = false := by
    intro m hm c hc
    obtain ⟨⟨seg, _, hstrip⟩, _⟩ := hF0 m hm
    rw [hstrip] at hc
    exact getLast?_stripChars_not seg c hc
  have hF5 : kept ≠ [] := by
    intro h0
    apply hne
    rw [hdef, h0]
    rfl
  have hG1 : stripChars (joinNl kept) = joinNl kept := by
    apply stripChars_eq_self
    · intro c hc
      rcases hk : kept with _ | ⟨m, ms⟩
      · exact absurd hk hF5
      · rw [hk, joinNl_head? m ms ((hF0 m (hk ▸ List.mem_cons_self m ms)).2)] at hc
        exact hF4h m (hk ▸ List.mem_cons_self m ms) c hc
    · exact joinNl_getLast_not_sp kept
        (fun m hm => ⟨(hF0 m hm).2, hF4l m hm⟩)
  have hout : cleanTextList l = joinNl kept := hdef.trans hG1
  have hstepNL : collapseNL (joinNl kept) = joinNl kept := by
    apply collapseNLAux_eq_self
    · exact noTwo_joinNl_nl kept fun m hm => ⟨(hF0 m hm).2, hF2 m hm⟩
    · intro h2
      omega
  have hstepSP : collapseSp (joinNl kept) = joinNl kept := by
    apply collapseSpAux_eq_self
    · exact noTwo_joinNl_sp ' ' kept (by decide) hF3
    · intro hcontra
      exact absurd hcontra (by simp)
  have hstepSplit : splitOnChar '\n' (joinNl kept) = kept :=
    splitOnChar_joinNl kept hF5 hF2
  have hstepMap : kept.map stripChars = kept := by
    have : ∀ m ∈ kept, stripChars m = m := by
      intro m hm
      obtain ⟨⟨seg, _, hstrip⟩, _⟩ := hF0 m hm
      rw [hstrip]
      exact stripChars_idem seg
    calc kept.map stripChars = kept.map id := List.map_congr_left this
      _ = kept := List.map_id kept
  have hstepFilter : kept.filter (fun m => !m.isEmpty) = kept := by
    apply List.filter_eq_self.mpr
    intro m hm
    have := (hF0 m hm).2
    simpa using this
  have hmain : cleanTextList (joinNl kept) = joinNl kept := by
    calc cleanTextList (joinNl kept)
        = stripChars (joinNl (((splitOnChar '\n'
            (collapseSp (collapseNL (joinNl kept)))).map stripChars).filter
            fun m => !m.isEmpty)) := rfl
      _ = stripChars (joinNl kept) := by
          rw [hstepNL, hstepSP, hstepSplit, hstepMap, hstepFilter]
      _ = joinNl kept := hG1
  rw [hout]
  exact hmain

/-- Claim C10: the whitespace normalizer applied to fetched content is
idempotent: normalizing twice yields the same string as normalizing once,
for every input. -/
theorem C10_clean_text_idempotent :
    ∀ s : String, cleanText (cleanText s) = cleanText s := by
  intro s
  by_cases hs : s = ""
  · subst hs
    rfl
  · by_cases hout : cleanTextList s.data = []
    · have h1 : cleanText s = "" := by
        rw [cleanText, if_neg hs, hout]
      rw [h1]
      rfl
    · have h2 : cleanText s = String.mk (cleanTextList s.data) := by
        rw [cleanText, if_neg hs]
      rw [h2]
      have h3 : String.mk (cleanTextList s.data) ≠ "" := by
        intro hcontra
        apply hout
        have hd := congrArg String.data hcontra
        simpa using hd
      rw [cleanText, if_neg h3]
      congr 1
      exact cleanTextList_idem s.data hout

/-- Claim C9, witness: a concrete raising run is finalized and re-raises
its exception. -/
theorem C9_witness :
    (run_logger (fun t => t) "hi" [LogEvent.agentStart "research" "find a story"]
      (.error "boom")).finalizeCount = 1 ∧
    (run_logger (fun t => t) "hi" [LogEvent.agentStart "research" "find a story"]
      (.error "boom")).raised = some "boom" :=
  ⟨(C9_finalize_on_every_path (fun t => t) "hi"
      [LogEvent.agentStart "research" "find a story"] (.error "boom")).1,
   ((C9_finalize_on_every_path (fun t => t) "hi"
      [LogEvent.agentStart "research" "find a story"] (.error "boom")).2.2.2.2
      "boom" rfl).1⟩

end AgadahBot
